import Mathlib

/-!
Verification of the timeline windowing and incremental reconciliation engine
of the TABS application (`src/scenes/gameplay.rs`, `src/components/string_timeline.rs`).

The Rust source computes with `f32`; this development embeds the arithmetic in `ℚ`
(exact rational arithmetic).  All branch conditions, clamps, floors and ceilings are
translated literally; the claims under study concern branch logic and ordering at
magnitudes where `f32` and exact arithmetic agree.  UI-only effects (entity spawning,
colors, pixel layout) are omitted: the embedding keeps exactly the state that decides
which primitives exist (keys, block indices, animation state).
-/

namespace Tabs

/-! ## Constants

From `src/components/string_timeline.rs` lines 13-34 and `src/scenes/gameplay.rs`
lines 17-21. -/

def DEFAULT_BLOCK_DURATION : ℚ := 10

def MIN_BLOCK_DURATION : ℚ := 6/5

def MAX_BLOCK_DURATION : ℚ := 14

def VISIBLE_BLOCKS : ℕ := 4

def NOTE_GROUP_TOLERANCE : ℚ := 2/25

def BLOCK_SHIFT_DURATION : ℚ := 9/50

def MIN_FRET_SPAN : ℤ := 4

def MIN_NOTES_FOR_TEMPO : ℕ := 8

def MIN_INTERVAL_SECONDS : ℚ := 1/100

def MAX_INTERVAL_SECONDS : ℚ := 4

def BEATS_PER_BLOCK : ℚ := 4

/-- `f32::EPSILON` (2⁻²³), used in the terminal-segment comparison. -/
def EPSILON_F32 : ℚ := 1 / 2 ^ 23

/-- Rust `f32::clamp(self, lo, hi)`: `if self < lo { lo } else if self > hi { hi } else { self }`. -/
def clampQ (x lo hi : ℚ) : ℚ :=
  if x < lo then lo else if x > hi then hi else x

/-- `clamp_block_duration` (string_timeline.rs lines 2207-2209). -/
def clamp_block_duration (duration : ℚ) : ℚ :=
  clampQ duration MIN_BLOCK_DURATION MAX_BLOCK_DURATION

/-- `default_block_duration` (string_timeline.rs lines 2211-2213). -/
def default_block_duration : ℚ := DEFAULT_BLOCK_DURATION

/-- `visible_block_count` (string_timeline.rs lines 2219-2221). -/
def visible_block_count : ℕ := VISIBLE_BLOCKS

theorem clampQ_le_right {lo hi : ℚ} (x : ℚ) (h : lo ≤ hi) : clampQ x lo hi ≤ hi := by
  unfold clampQ
  split_ifs <;> linarith

theorem clampQ_le_left {lo hi : ℚ} (x : ℚ) (h : lo ≤ hi) : lo ≤ clampQ x lo hi := by
  unfold clampQ
  split_ifs <;> linarith

/-! ## Song data model (`src/file/song.rs`)

Only the fields read by the embedded functions are modelled; `chord_index`,
`vibrato`, `slap`, `pluck` and `tap` are never read by the timeline engine. -/

/-- `Techniques` enum (song.rs lines 109-125), in declaration order. -/
inductive Techniques where
  | Slide
  | Bend
  | Tremolo
  | Harmonic
  | HammerOn
  | PullOff
  | PalmMute
  | Vibrato
  | Tap
  | Slap
  | Pop
  | PinchHarmonic
  | Chord
  | ChordNote
  | Arpeggio
deriving DecidableEq

/-- The enum discriminant of a `Techniques` value (`* as u8` in the source). -/
def Techniques.code : Techniques → ℕ
  | .Slide => 0
  | .Bend => 1
  | .Tremolo => 2
  | .Harmonic => 3
  | .HammerOn => 4
  | .PullOff => 5
  | .PalmMute => 6
  | .Vibrato => 7
  | .Tap => 8
  | .Slap => 9
  | .Pop => 10
  | .PinchHarmonic => 11
  | .Chord => 12
  | .ChordNote => 13
  | .Arpeggio => 14

/-- `TabNote` (song.rs lines 58-74), restricted to the fields the timeline engine reads. -/
structure TabNote where
  time : ℚ
  techniques : List Techniques
  string : ℤ
  fret : ℤ
  anchor_fret : ℤ
  sustain : ℚ
  slide_to : ℤ
  slide_unpitch_to : ℤ
  max_bend : ℚ
deriving DecidableEq

/-- `TabNoteChart` (song.rs lines 51-55). -/
structure TabNoteChart where
  difficulty : ℤ
  notes : List TabNote
deriving DecidableEq

/-! ## TempoEstimator (`src/scenes/gameplay.rs` lines 342-405) -/

/-- `Vec::dedup_by(|a, b| (*a - *b).abs() < 0.0005)`: remove each element that is
within 5·10⁻⁴ of the last kept element. -/
def dedupCloseAux (last : ℚ) : List ℚ → List ℚ
  | [] => []
  | y :: ys => if |y - last| < 1/2000 then dedupCloseAux last ys else y :: dedupCloseAux y ys

def dedupClose : List ℚ → List ℚ
  | [] => []
  | x :: xs => x :: dedupCloseAux x xs

/-- `collect_unique_note_times` (gameplay.rs lines 356-369): onset times of all notes on a
non-negative string, sorted ascending and deduplicated within 0.5 ms. -/
def collect_unique_note_times (charts : List TabNoteChart) : List ℚ :=
  let times := charts.flatMap (fun chart => (chart.notes.filter (fun n => 0 ≤ n.string)).map (·.time))
  dedupClose (times.insertionSort (· ≤ ·))

/-- The `while bpm < 60.0 { bpm *= 2.0 }` loop of `estimate_beat_duration`.  The loop body
is reached only with `bpm > 0` (it is fed `60/diff` with `diff ≥ 0.01`); the `0 < bpm`
conjunct makes the translation total where the Rust loop would not terminate. -/
def octaveRaise (bpm : ℚ) : ℚ :=
  if h : 0 < bpm ∧ bpm < 60 then octaveRaise (bpm * 2) else bpm
termination_by ⌈(60:ℚ) / bpm⌉.toNat
decreasing_by
  obtain ⟨hpos, hlt⟩ := h
  have hx : (1:ℚ) < 60 / bpm := (one_lt_div hpos).mpr hlt
  have hc : 2 ≤ ⌈(60:ℚ) / bpm⌉ := by
    have := Int.lt_ceil.mpr (by exact_mod_cast hx : ((1:ℤ):ℚ) < 60 / bpm)
    omega
  have hkey : ⌈(60:ℚ) / (bpm * 2)⌉ ≤ ⌈(60:ℚ) / bpm⌉ - 1 := by
    apply Int.ceil_le.mpr
    have h1 : (60:ℚ) / (bpm * 2) = (60 / bpm) / 2 := by
      field_simp
    have h2 : (60:ℚ) / bpm ≤ (⌈(60:ℚ) / bpm⌉ : ℚ) := Int.le_ceil _
    have h3 : ((2:ℤ):ℚ) ≤ ((⌈(60:ℚ) / bpm⌉ : ℤ) : ℚ) := by exact_mod_cast hc
    push_cast
    rw [h1]
    linarith
  omega

/-- The `while bpm > 240.0 { bpm *= 0.5 }` loop of `estimate_beat_duration`. -/
def octaveLower (bpm : ℚ) : ℚ :=
  if h : 240 < bpm then octaveLower (bpm / 2) else bpm
termination_by ⌈bpm⌉.toNat
decreasing_by
  have hc : 241 ≤ ⌈bpm⌉ := by
    have := Int.lt_ceil.mpr (by exact_mod_cast h : ((240:ℤ):ℚ) < bpm)
    omega
  have hkey : ⌈bpm / 2⌉ ≤ ⌈bpm⌉ - 1 := by
    apply Int.ceil_le.mpr
    have h2 : bpm ≤ (⌈bpm⌉ : ℚ) := Int.le_ceil _
    have h3 : ((241:ℤ):ℚ) ≤ ((⌈bpm⌉ : ℤ) : ℚ) := by exact_mod_cast hc
    push_cast
    linarith
  omega

/-- The gap-collection loop of `estimate_beat_duration` (gameplay.rs lines 376-390):
for each adjacent pair, keep gaps in the plausible interval and octave-fold `60/gap`. -/
def collectBpms : List ℚ → List ℚ
  | a :: b :: rest =>
    let diff := max (b - a) 0
    if diff < MIN_INTERVAL_SECONDS ∨ diff > MAX_INTERVAL_SECONDS then collectBpms (b :: rest)
    else octaveLower (octaveRaise (60 / max diff (1/10000))) :: collectBpms (b :: rest)
  | _ => []

/-- `estimate_beat_duration` (gameplay.rs lines 371-405). -/
def estimate_beat_duration (times : List ℚ) : Option ℚ :=
  if times.length < 2 then none
  else
    let bpms := collectBpms times
    if bpms.length < MIN_NOTES_FOR_TEMPO then none
    else
      let sorted := bpms.insertionSort (· ≤ ·)
      let median_bpm :=
        if sorted.length % 2 = 0 then
          (sorted.getD (sorted.length / 2 - 1) 0 + sorted.getD (sorted.length / 2) 0) / 2
        else sorted.getD (sorted.length / 2) 0
      let beat := 60 / max median_bpm (1/10000)
      some (clampQ beat (1/4) (3/2))

/-- `determine_initial_block_duration` (gameplay.rs lines 342-354). -/
def determine_initial_block_duration (charts : List TabNoteChart) : ℚ :=
  let times := collect_unique_note_times charts
  if times.length < MIN_NOTES_FOR_TEMPO then default_block_duration
  else
    match estimate_beat_duration times with
    | some beat_duration => clamp_block_duration (beat_duration * BEATS_PER_BLOCK)
    | none => default_block_duration

/-! ## Chart selection (`src/scenes/gameplay.rs` lines 424-457) -/

/-- Rust `Iterator::min().unwrap_or(d)`: fold of `min` over the list, default `d`. -/
def listMinD (l : List ℤ) (d : ℤ) : ℤ :=
  match l with
  | [] => d
  | x :: xs => xs.foldl min x

/-- Rust `Iterator::max().unwrap_or(d)`. -/
def listMaxD (l : List ℤ) (d : ℤ) : ℤ :=
  match l with
  | [] => d
  | x :: xs => xs.foldl max x

/-- The `sort_by_key(difficulty)` step of `select_charts_up_to` (gameplay.rs line 430);
Rust's sort is stable, as is insertion sort. -/
def sorted_charts (note_charts : List TabNoteChart) : List TabNoteChart :=
  note_charts.insertionSort (fun a b => a.difficulty ≤ b.difficulty)

/-- `min_difficulty` of `select_charts_up_to` (gameplay.rs lines 432-436). -/
def min_difficulty (charts : List TabNoteChart) : ℤ :=
  listMinD (charts.map (·.difficulty)) 0

/-- `max_difficulty` of `select_charts_up_to` (gameplay.rs lines 437-441). -/
def max_difficulty (charts : List TabNoteChart) : ℤ :=
  listMaxD (charts.map (·.difficulty)) (min_difficulty charts)

/-- The initial threshold of `select_charts_up_to` (gameplay.rs lines 443-448):
`ceil(max_difficulty * clamped/100)` unless `max_difficulty ≤ 0` (then `min_difficulty`). -/
def chart_threshold0 (charts : List TabNoteChart) (difficulty_percent : ℚ) : ℤ :=
  if max_difficulty charts ≤ 0 then min_difficulty charts
  else ⌈(max_difficulty charts : ℚ) * (clampQ difficulty_percent 0 100 / 100)⌉

/-- The final threshold of `select_charts_up_to` (gameplay.rs lines 449-451): the initial
threshold lifted to at least `min_difficulty`. -/
def chart_threshold (charts : List TabNoteChart) (difficulty_percent : ℚ) : ℤ :=
  if chart_threshold0 charts difficulty_percent < min_difficulty charts
  then min_difficulty charts else chart_threshold0 charts difficulty_percent

/-- `select_charts_up_to` (gameplay.rs lines 424-457): sort charts by difficulty, compute
the difficulty threshold from the clamped percentage, and keep the charts at or below it. -/
def select_charts_up_to (note_charts : List TabNoteChart) (difficulty_percent : ℚ) :
    List TabNoteChart :=
  if note_charts = [] then []
  else
    let charts := sorted_charts note_charts
    (charts).filter (fun chart => chart.difficulty ≤ chart_threshold charts difficulty_percent)

theorem foldl_min_le_self {α : Type} [LinearOrder α] (xs : List α) (a : α) :
    xs.foldl min a ≤ a := by
  induction xs generalizing a with
  | nil => simp
  | cons x xs ih => exact le_trans (ih (min a x)) (min_le_left a x)

theorem foldl_min_le_mem {α : Type} [LinearOrder α] (xs : List α) (a : α) :
    ∀ x ∈ xs, xs.foldl min a ≤ x := by
  induction xs generalizing a with
  | nil => simp
  | cons y ys ih =>
    intro x hx
    rcases List.mem_cons.mp hx with rfl | hx
    · exact le_trans (foldl_min_le_self ys (min a x)) (min_le_right a x)
    · exact ih (min a y) x hx

theorem foldl_min_mem {α : Type} [LinearOrder α] (xs : List α) (a : α) :
    xs.foldl min a = a ∨ xs.foldl min a ∈ xs := by
  induction xs generalizing a with
  | nil => simp
  | cons y ys ih =>
    rcases ih (min a y) with h | h
    · rcases min_cases a y with ⟨h', _⟩ | ⟨h', _⟩
      · left; rw [List.foldl_cons, h, h']
      · right; rw [List.foldl_cons, h, h']; exact List.mem_cons_self _ _
    · right; exact List.mem_cons_of_mem _ h

theorem listMinD_le (l : List ℤ) (d : ℤ) : ∀ x ∈ l, listMinD l d ≤ x := by
  match l with
  | [] => simp
  | x :: xs =>
    intro y hy
    rcases List.mem_cons.mp hy with rfl | hy
    · exact foldl_min_le_self xs y
    · exact foldl_min_le_mem xs x y hy

theorem listMinD_mem (l : List ℤ) (d : ℤ) (h : l ≠ []) : listMinD l d ∈ l := by
  match l with
  | [] => exact absurd rfl h
  | x :: xs =>
    rcases foldl_min_mem xs x with h' | h'
    · rw [listMinD, h']; exact List.mem_cons_self _ _
    · exact List.mem_cons_of_mem _ h'

theorem foldl_max_self_le {α : Type} [LinearOrder α] (xs : List α) (a : α) :
    a ≤ xs.foldl max a := by
  induction xs generalizing a with
  | nil => simp
  | cons x xs ih => exact le_trans (le_max_left a x) (ih (max a x))

theorem foldl_max_mem_le {α : Type} [LinearOrder α] (xs : List α) (a : α) :
    ∀ x ∈ xs, x ≤ xs.foldl max a := by
  induction xs generalizing a with
  | nil => simp
  | cons y ys ih =>
    intro x hx
    rcases List.mem_cons.mp hx with rfl | hx
    · exact le_trans (le_max_right a x) (foldl_max_self_le ys (max a x))
    · exact ih (max a y) x hx

theorem listMaxD_ge (l : List ℤ) (d : ℤ) : ∀ x ∈ l, x ≤ listMaxD l d := by
  match l with
  | [] => simp
  | x :: xs =>
    intro y hy
    rcases List.mem_cons.mp hy with rfl | hy
    · exact foldl_max_self_le xs y
    · exact foldl_max_mem_le xs x y hy

theorem foldl_max_mem {α : Type} [LinearOrder α] (xs : List α) (a : α) :
    xs.foldl max a = a ∨ xs.foldl max a ∈ xs := by
  induction xs generalizing a with
  | nil => simp
  | cons y ys ih =>
    rcases ih (max a y) with h | h
    · rcases max_cases a y with ⟨h', _⟩ | ⟨h', _⟩
      · left; rw [List.foldl_cons, h, h']
      · right; rw [List.foldl_cons, h, h']; exact List.mem_cons_self _ _
    · right; exact List.mem_cons_of_mem _ h

theorem listMaxD_mem (l : List ℤ) (d : ℤ) (h : l ≠ []) : listMaxD l d ∈ l := by
  match l with
  | [] => exact absurd rfl h
  | x :: xs =>
    rcases foldl_max_mem xs x with h' | h'
    · rw [listMaxD, h']; exact List.mem_cons_self _ _
    · exact List.mem_cons_of_mem _ h'

/-- Claim C7 (amended): for every non-empty chart list and percentage `pct ∈ [0,100]`,
there are witnesses `mn` (the least difficulty) and `mx` (the greatest difficulty) such
that: when `mx > 0`, selection returns exactly the charts of difficulty ≤
`max ⌈mx·pct/100⌉ mn`; when `mx ≤ 0` (the code's special case), selection returns
exactly the charts of difficulty ≤ `mn`; and a minimum-difficulty chart is always
included.  (The claim's formula holds unconditionally only when `mx > 0`; with
distinct negative difficulties the code selects only the minimum charts.) -/
theorem c7_selection (charts : List TabNoteChart) (pct : ℚ)
    (hne : charts ≠ []) (h0 : 0 ≤ pct) (h100 : pct ≤ 100) :
    ∃ mn mx : ℤ,
      (mn ∈ charts.map (·.difficulty) ∧ ∀ d ∈ charts.map (·.difficulty), mn ≤ d) ∧
      (mx ∈ charts.map (·.difficulty) ∧ ∀ d ∈ charts.map (·.difficulty), d ≤ mx) ∧
      (0 < mx →
        ∀ c, c ∈ select_charts_up_to charts pct ↔
          c ∈ charts ∧ c.difficulty ≤ max ⌈(mx : ℚ) * (pct / 100)⌉ mn) ∧
      (mx ≤ 0 →
        ∀ c, c ∈ select_charts_up_to charts pct ↔ c ∈ charts ∧ c.difficulty ≤ mn) ∧
      (∃ c ∈ select_charts_up_to charts pct, c.difficulty = mn) := by
  classical
  have hperm : (sorted_charts charts).Perm charts := List.perm_insertionSort _ _
  have hpermd : ((sorted_charts charts).map (·.difficulty)).Perm
      (charts.map (·.difficulty)) := hperm.map _
  have hsne : sorted_charts charts ≠ [] := by
    intro h
    exact hne (List.Perm.eq_nil (h ▸ hperm : ([] : List TabNoteChart).Perm charts).symm)
  have hmapne : (sorted_charts charts).map (·.difficulty) ≠ [] := by
    simpa using hsne
  refine ⟨min_difficulty (sorted_charts charts), max_difficulty (sorted_charts charts),
    ⟨?_, ?_⟩, ⟨?_, ?_⟩, ?_, ?_, ?_⟩
  · exact hpermd.mem_iff.mp (listMinD_mem _ _ hmapne)
  · intro d hd
    exact listMinD_le _ _ d (hpermd.mem_iff.mpr hd)
  · exact hpermd.mem_iff.mp (listMaxD_mem _ _ hmapne)
  · intro d hd
    exact listMaxD_ge _ _ d (hpermd.mem_iff.mpr hd)
  · intro hpos c
    have hth : chart_threshold (sorted_charts charts) pct =
        max ⌈(max_difficulty (sorted_charts charts) : ℚ) * (pct / 100)⌉
          (min_difficulty (sorted_charts charts)) := by
      have hclamp : clampQ pct 0 100 = pct := by
        rw [clampQ, if_neg (not_lt.mpr h0)]
        rw [if_neg (by simpa using h100)]
      have hth0 : chart_threshold0 (sorted_charts charts) pct =
          ⌈(max_difficulty (sorted_charts charts) : ℚ) * (pct / 100)⌉ := by
        rw [chart_threshold0, if_neg (by omega : ¬ max_difficulty (sorted_charts charts) ≤ 0),
          hclamp]
      rw [chart_threshold, hth0]
      rcases lt_or_ge (⌈(max_difficulty (sorted_charts charts) : ℚ) * (pct / 100)⌉)
          (min_difficulty (sorted_charts charts)) with h | h
      · rw [if_pos h, max_eq_right h.le]
      · rw [if_neg (not_lt.mpr h), max_eq_left h]
    simp only [select_charts_up_to, if_neg hne, List.mem_filter, hth, hperm.mem_iff,
      decide_eq_true_eq]
  · intro hneg c
    have hth : chart_threshold (sorted_charts charts) pct =
        min_difficulty (sorted_charts charts) := by
      have hth0 : chart_threshold0 (sorted_charts charts) pct =
          min_difficulty (sorted_charts charts) := by
        rw [chart_threshold0, if_pos hneg]
      rw [chart_threshold, hth0, if_neg (lt_irrefl _)]
    simp only [select_charts_up_to, if_neg hne, List.mem_filter, hth, hperm.mem_iff,
      decide_eq_true_eq]
  · have hth_ge : min_difficulty (sorted_charts charts) ≤
        chart_threshold (sorted_charts charts) pct := by
      unfold chart_threshold
      rcases lt_or_ge (chart_threshold0 (sorted_charts charts) pct)
          (min_difficulty (sorted_charts charts)) with h | h
      · simp only [if_pos h, le_refl]
      · simp only [if_neg (not_lt.mpr h)]; exact h
    obtain ⟨c, hc_mem, hc_diff⟩ :=
      List.mem_map.mp (listMinD_mem ((sorted_charts charts).map (·.difficulty)) 0 hmapne)
    refine ⟨c, ?_, hc_diff⟩
    simp only [select_charts_up_to, if_neg hne, List.mem_filter, decide_eq_true_eq]
    refine ⟨hc_mem, ?_⟩
    rw [hc_diff]
    exact hth_ge

/-- Charts of difficulties 0, 3 and 7, the scenario set of claim C7. -/
def charts037 : List TabNoteChart := [⟨0, []⟩, ⟨3, []⟩, ⟨7, []⟩]

/-- Claim C7 (counterexample): with two charts of difficulties −4 and −3 (max ≤ 0) and
pct = 100, the claim formula `difficulty ≤ max ⌈max_difficulty·pct/100⌉ min_difficulty`
admits the difficulty −3 chart (−3 ≤ max ⌈−3⌉ (−4) = −3), but the code takes its
`max_difficulty ≤ 0` special case and selects only the difficulty −4 chart. -/
theorem c7_counterexample :
    (⟨-3, []⟩ : TabNoteChart) ∈ ([⟨-4, []⟩, ⟨-3, []⟩] : List TabNoteChart) ∧
    (⟨-3, []⟩ : TabNoteChart).difficulty ≤ max ⌈((-3 : ℤ) : ℚ) * ((100:ℚ) / 100)⌉ (-4) ∧
    (⟨-3, []⟩ : TabNoteChart) ∉ select_charts_up_to [⟨-4, []⟩, ⟨-3, []⟩] 100 := by
  refine ⟨by simp, ?_, ?_⟩
  · rw [show (((-3 : ℤ) : ℚ) * ((100:ℚ) / 100)) = ((-3:ℤ):ℚ) by norm_num, Int.ceil_intCast]
    norm_num
  have hne2 : ([⟨-4, []⟩, ⟨-3, []⟩] : List TabNoteChart) ≠ [] := List.cons_ne_nil _ _
  have hsel : select_charts_up_to [⟨-4, []⟩, ⟨-3, []⟩] 100 = [⟨-4, []⟩] := by
    norm_num [select_charts_up_to, if_neg hne2, sorted_charts, List.insertionSort,
      List.orderedInsert, chart_threshold, chart_threshold0, max_difficulty, min_difficulty,
      listMinD, listMaxD, clampQ, min_def, max_def, List.filter]
  rw [hsel]
  simp

/-- Witness for C7 at the scenario input: charts of difficulties {0, 3, 7} with pct = 0
select exactly the difficulty-0 chart, and the characterization theorem applies. -/
theorem c7_selection_witness :
    charts037 ≠ [] ∧ (0:ℚ) ≤ 0 ∧ (0:ℚ) ≤ 100 ∧
    select_charts_up_to charts037 0 = [⟨0, []⟩] ∧
    (∃ mn mx : ℤ,
      (mn ∈ charts037.map (·.difficulty) ∧ ∀ d ∈ charts037.map (·.difficulty), mn ≤ d) ∧
      (mx ∈ charts037.map (·.difficulty) ∧ ∀ d ∈ charts037.map (·.difficulty), d ≤ mx) ∧
      (0 < mx →
        ∀ c, c ∈ select_charts_up_to charts037 0 ↔
          c ∈ charts037 ∧ c.difficulty ≤ max ⌈(mx : ℚ) * ((0:ℚ) / 100)⌉ mn) ∧
      (mx ≤ 0 →
        ∀ c, c ∈ select_charts_up_to charts037 0 ↔ c ∈ charts037 ∧ c.difficulty ≤ mn) ∧
      (∃ c ∈ select_charts_up_to charts037 0, c.difficulty = mn)) := by
  have hne3 : charts037 ≠ [] := by rw [charts037]; exact List.cons_ne_nil _ _
  have hne4 : ([⟨0, []⟩, ⟨3, []⟩, ⟨7, []⟩] : List TabNoteChart) ≠ [] := List.cons_ne_nil _ _
  refine ⟨hne3, le_refl _, by norm_num, ?_, ?_⟩
  · norm_num [select_charts_up_to, charts037, if_neg hne4, sorted_charts,
      List.insertionSort, List.orderedInsert, chart_threshold, chart_threshold0,
      max_difficulty, min_difficulty, listMinD, listMaxD, clampQ, min_def, max_def,
      List.filter, Int.ceil_zero]
  · exact c7_selection charts037 0 hne3 (le_refl _) (by norm_num)

/-- A chart consisting of one note (string 0, fret 0) at each given onset time. -/
def chartOfTimes (ts : List ℚ) : TabNoteChart :=
  { difficulty := 0,
    notes := ts.map (fun t => { time := t, techniques := [], string := 0, fret := 0,
                                anchor_fret := -1, sustain := 0, slide_to := -1,
                                slide_unpitch_to := -1, max_bend := 0 }) }

/-- The 8-sample onset list of the C1 scenario. -/
def c1Times : List ℚ := [0, 1/2, 1, 3/2, 2, 5/2, 3, 7/2]

/-- The same uniform 0.5 s grid with one more sample (9 onsets, hence 8 gaps). -/
def c1TimesNine : List ℚ := [0, 1/2, 1, 3/2, 2, 5/2, 3, 7/2, 4]

theorem octaveRaise_120 : octaveRaise 120 = 120 := by
  rw [octaveRaise]; norm_num

theorem octaveLower_120 : octaveLower 120 = 120 := by
  rw [octaveLower]; norm_num

theorem collectBpms_length_le (a : ℚ) (l : List ℚ) :
    (collectBpms (a :: l)).length ≤ l.length := by
  induction l generalizing a with
  | nil => simp [collectBpms]
  | cons b r ih =>
    rw [collectBpms]
    split
    · exact (ih b).trans (by simp)
    · simpa using ih b

theorem estimate_beat_duration_bounds {times : List ℚ} {b : ℚ}
    (h : estimate_beat_duration times = some b) : 1/4 ≤ b ∧ b ≤ 3/2 := by
  simp only [estimate_beat_duration] at h
  split at h
  · exact absurd h (by simp)
  · split at h
    · exact absurd h (by simp)
    · rw [Option.some_inj] at h
      subst h
      exact ⟨clampQ_le_left _ (by norm_num), clampQ_le_right _ (by norm_num)⟩

theorem estimate_beat_duration_length {times : List ℚ} {b : ℚ}
    (h : estimate_beat_duration times = some b) : MIN_NOTES_FOR_TEMPO < times.length := by
  simp only [estimate_beat_duration] at h
  split at h
  · exact absurd h (by simp)
  · split at h
    · exact absurd h (by simp)
    · rename_i hlen hbpms
      match times with
      | [] => simp at hlen
      | a :: l =>
        have := collectBpms_length_le a l
        simp only [not_lt] at hbpms
        simp only [List.length_cons]
        omega

/-- Claim C1 (counterexample): on the 8-sample onset list `[0, 0.5, …, 3.5]` the
block-duration estimation does NOT return 2.0 seconds: 8 onsets yield only 7 valid
gaps, which is below the 8-gap minimum that `estimate_beat_duration` requires, so
the default is returned instead. -/
theorem c1_counterexample :
    determine_initial_block_duration [chartOfTimes c1Times] ≠ 2 := by
  have h10 : determine_initial_block_duration [chartOfTimes c1Times] = 10 := by
    norm_num [determine_initial_block_duration, collect_unique_note_times, chartOfTimes, c1Times,
      dedupClose, dedupCloseAux, List.insertionSort, List.orderedInsert, abs_eq_max_neg, neg_neg,
      estimate_beat_duration, collectBpms, MIN_INTERVAL_SECONDS, MAX_INTERVAL_SECONDS,
      MIN_NOTES_FOR_TEMPO, max_def, octaveRaise_120, octaveLower_120, default_block_duration,
      DEFAULT_BLOCK_DURATION]
  rw [h10]
  norm_num

/-- Claim C1 (amended): for the onset list `[0, 0.5, …, 3.5]` (8 samples, 0.5 s gaps)
`determine_initial_block_duration` returns the 10-second default, because the 8 samples
produce only 7 inter-onset gaps — fewer than the minimum count (8) of valid gaps — so
`estimate_beat_duration` falls back.  With one further sample on the same 0.5 s grid
(9 onsets, 8 gaps) the estimation succeeds: beat 0.5 s (120 BPM), times 4 beats per
block, clamped, giving the claimed 2.0-second block duration. -/
theorem c1_amended :
    determine_initial_block_duration [chartOfTimes c1Times] = 10 ∧
    determine_initial_block_duration [chartOfTimes c1TimesNine] = 2 := by
  constructor
  · norm_num [determine_initial_block_duration, collect_unique_note_times, chartOfTimes, c1Times,
      dedupClose, dedupCloseAux, List.insertionSort, List.orderedInsert, abs_eq_max_neg, neg_neg,
      estimate_beat_duration, collectBpms, MIN_INTERVAL_SECONDS, MAX_INTERVAL_SECONDS,
      MIN_NOTES_FOR_TEMPO, max_def, octaveRaise_120, octaveLower_120, default_block_duration,
      DEFAULT_BLOCK_DURATION]
  · norm_num [determine_initial_block_duration, collect_unique_note_times, chartOfTimes,
      c1TimesNine, dedupClose, dedupCloseAux, List.insertionSort, List.orderedInsert,
      abs_eq_max_neg, neg_neg, estimate_beat_duration, collectBpms, MIN_INTERVAL_SECONDS,
      MAX_INTERVAL_SECONDS, MIN_NOTES_FOR_TEMPO, max_def, octaveRaise_120, octaveLower_120,
      default_block_duration, DEFAULT_BLOCK_DURATION, BEATS_PER_BLOCK, clamp_block_duration,
      clampQ, MIN_BLOCK_DURATION, MAX_BLOCK_DURATION, List.getD]

/-- Claim C6: for every input chart list, the block duration returned by
`determine_initial_block_duration` lies in `[MIN_BLOCK_DURATION, MAX_BLOCK_DURATION]`
= `[1.2, 14]` seconds, including the fallback-to-default cases. -/
theorem c6_tempo_clamp (charts : List TabNoteChart) :
    MIN_BLOCK_DURATION ≤ determine_initial_block_duration charts ∧
    determine_initial_block_duration charts ≤ MAX_BLOCK_DURATION := by
  by_cases hL : (collect_unique_note_times charts).length < MIN_NOTES_FOR_TEMPO
  · simp only [determine_initial_block_duration, if_pos hL]
    norm_num [default_block_duration, DEFAULT_BLOCK_DURATION, MIN_BLOCK_DURATION,
      MAX_BLOCK_DURATION]
  · rcases hE : estimate_beat_duration (collect_unique_note_times charts) with _ | bd
    · simp only [determine_initial_block_duration, if_neg hL, hE]
      norm_num [default_block_duration, DEFAULT_BLOCK_DURATION, MIN_BLOCK_DURATION,
        MAX_BLOCK_DURATION]
    · simp only [determine_initial_block_duration, if_neg hL, hE]
      exact ⟨clampQ_le_left _ (by norm_num [MIN_BLOCK_DURATION, MAX_BLOCK_DURATION]),
        clampQ_le_right _ (by norm_num [MIN_BLOCK_DURATION, MAX_BLOCK_DURATION])⟩

/-- Claim C10: whenever tempo estimation succeeds, the beat duration was clamped into
`[0.25, 1.5]` seconds before multiplication by 4 beats per block, so every successfully
estimated block duration lies in `[1.2, 6]` seconds: the 14-second maximum of the clamp
range is reachable only through the 10-second default. -/
theorem c10_estimated_duration_range (charts : List TabNoteChart) (b : ℚ)
    (h : estimate_beat_duration (collect_unique_note_times charts) = some b) :
    MIN_BLOCK_DURATION ≤ determine_initial_block_duration charts ∧
    determine_initial_block_duration charts ≤ 6 := by
  obtain ⟨hb1, hb2⟩ := estimate_beat_duration_bounds h
  have hlen := estimate_beat_duration_length h
  simp only [determine_initial_block_duration, if_neg (by omega :
    ¬(collect_unique_note_times charts).length < MIN_NOTES_FOR_TEMPO), h]
  unfold clamp_block_duration clampQ
  unfold MIN_BLOCK_DURATION MAX_BLOCK_DURATION BEATS_PER_BLOCK
  split_ifs <;> constructor <;> linarith

/-- Witness for C10 at the 9-sample grid: estimation succeeds with beat 0.5 s and the
resulting block duration indeed lies in `[1.2, 6]`. -/
theorem c10_estimated_duration_range_witness :
    estimate_beat_duration (collect_unique_note_times [chartOfTimes c1TimesNine])
        = some (1/2) ∧
    MIN_BLOCK_DURATION ≤ determine_initial_block_duration [chartOfTimes c1TimesNine] ∧
    determine_initial_block_duration [chartOfTimes c1TimesNine] ≤ 6 := by
  have hest : estimate_beat_duration (collect_unique_note_times [chartOfTimes c1TimesNine])
      = some (1/2) := by
    norm_num [collect_unique_note_times, chartOfTimes, c1TimesNine, dedupClose, dedupCloseAux,
      List.insertionSort, List.orderedInsert, abs_eq_max_neg, neg_neg, estimate_beat_duration,
      collectBpms, MIN_INTERVAL_SECONDS, MAX_INTERVAL_SECONDS, MIN_NOTES_FOR_TEMPO, max_def,
      octaveRaise_120, octaveLower_120, clampQ, List.getD]
  exact ⟨hest, c10_estimated_duration_range [chartOfTimes c1TimesNine] (1/2) hest⟩

/-! ## Timeline data model (`src/components/string_timeline.rs` lines 49-104) -/

/-- `TimelineNote` (string_timeline.rs lines 81-91). -/
structure TimelineNote where
  time : ℚ
  sustain : ℚ
  string_index : ℕ
  fret : ℤ
  techniques : List Techniques
  additional_frets : List ℤ
  slide_target : Option ℤ
  slide_unpitched_target : Option ℤ
deriving DecidableEq

/-- `StringTimelineFeed` (string_timeline.rs lines 49-58), restricted to the fields that
`collect_active_notes` and `render_notes` read (`window_start`, `window_end` and
`block_duration_locked` are not read by them). -/
structure StringTimelineFeed where
  string_count : ℕ
  notes : List TimelineNote
  current_time : ℚ
  block_duration : ℚ
deriving DecidableEq

/-- `TimelineNote::primary_slide_target` (string_timeline.rs lines 94-96). -/
def TimelineNote.primary_slide_target (n : TimelineNote) : Option ℤ :=
  n.slide_target.or n.slide_unpitched_target

/-- `TimelineNote::is_slide` (string_timeline.rs lines 98-103). -/
def TimelineNote.is_slide (n : TimelineNote) : Bool :=
  n.techniques.contains Techniques.Slide &&
    (n.slide_target.or n.slide_unpitched_target).isSome

/-! ## FretContextView active notes (`src/components/string_timeline.rs` lines 1954-1994) -/

/-- The per-note sounding test of `collect_active_notes`: the sustained interval
`[time, time + max(sustain,0)]` contains `current_time` within `NOTE_GROUP_TOLERANCE`. -/
def isSounding (t : ℚ) (n : TimelineNote) : Bool :=
  decide (t + NOTE_GROUP_TOLERANCE ≥ n.time) &&
    decide (t ≤ n.time + max n.sustain 0 + NOTE_GROUP_TOLERANCE)

/-- `collect_active_notes` (string_timeline.rs lines 1954-1994).  The Rust
`fold(f32::MAX, f32::min)` over a non-empty list is modelled by folding `min` from the
head element. -/
def collect_active_notes (feed : StringTimelineFeed) : List TimelineNote :=
  if feed.notes = [] then []
  else
    match feed.notes.filter (isSounding feed.current_time) with
    | a :: rest =>
      let min_time := (rest.map (·.time)).foldl min a.time
      (a :: rest).filter (fun n => decide (|n.time - min_time| ≤ NOTE_GROUP_TOLERANCE))
    | [] =>
      match (feed.notes.filter
          (fun n => decide (n.time + NOTE_GROUP_TOLERANCE ≥ feed.current_time))).map (·.time) with
      | u :: us =>
        let target := us.foldl min u
        feed.notes.filter (fun n => decide (|n.time - target| ≤ NOTE_GROUP_TOLERANCE))
      | [] => []

/-- Sounding note A of the C8 counterexample: a long sustain covering `t = 5`. -/
def noteLong : TimelineNote :=
  { time := 0, sustain := 10, string_index := 0, fret := 1, techniques := [],
    additional_frets := [], slide_target := none, slide_unpitched_target := none }

/-- Sounding note B of the C8 counterexample: onset exactly at `t = 5`. -/
def noteAtFive : TimelineNote :=
  { time := 5, sustain := 0, string_index := 0, fret := 2, techniques := [],
    additional_frets := [], slide_target := none, slide_unpitched_target := none }

/-- The C8 counterexample feed: both notes are sounding at `t = 5`. -/
def c8Feed : StringTimelineFeed :=
  { string_count := 1, notes := [noteLong, noteAtFive], current_time := 5,
    block_duration := 10 }

/-- Claim C8 (counterexample): at `t = 5` both notes of `c8Feed` are sounding (their
sustained intervals contain `t` within ε = 0.08), yet `collect_active_notes` returns only
the earlier note: sounding notes are additionally restricted to the group within ε of the
earliest sounding onset, which the claim's description omits. -/
theorem c8_counterexample :
    isSounding c8Feed.current_time noteAtFive = true ∧
    noteAtFive ∈ c8Feed.notes ∧
    noteAtFive ∉ collect_active_notes c8Feed := by
  refine ⟨by norm_num [isSounding, c8Feed, noteAtFive, NOTE_GROUP_TOLERANCE, max_def], ?_, ?_⟩
  · simp [c8Feed]
  · have hcoll : collect_active_notes c8Feed = [noteLong] := by
      norm_num [collect_active_notes, c8Feed, isSounding, noteLong, noteAtFive,
        NOTE_GROUP_TOLERANCE, List.filter, max_def, min_def, abs_eq_max_neg, neg_neg,
        List.cons_ne_nil]
    rw [hcoll]
    simp [noteAtFive, noteLong]

theorem tol_pos : (0:ℚ) < NOTE_GROUP_TOLERANCE := by norm_num [NOTE_GROUP_TOLERANCE]

/-- Claim C8 (amended): the active set used by the fret view is the earliest-onset group
(within ε = `NOTE_GROUP_TOLERANCE` = 0.08 s) of the notes whose sustained interval
contains `current_time` within ε — not all such notes; only when no note is sounding does
it fall back to the group (within ε) of the smallest onset `u` with
`current_time ≤ u + ε`. -/
theorem c8_active_notes (feed : StringTimelineFeed) (n : TimelineNote) :
    (feed.notes.filter (isSounding feed.current_time) ≠ [] →
      (n ∈ collect_active_notes feed ↔
        n ∈ feed.notes ∧ isSounding feed.current_time n = true ∧
        ∀ m ∈ feed.notes, isSounding feed.current_time m = true →
          n.time ≤ m.time + NOTE_GROUP_TOLERANCE)) ∧
    (feed.notes.filter (isSounding feed.current_time) = [] →
      (n ∈ collect_active_notes feed ↔
        n ∈ feed.notes ∧
        ∃ u ∈ feed.notes, feed.current_time ≤ u.time + NOTE_GROUP_TOLERANCE ∧
          (∀ m ∈ feed.notes, feed.current_time ≤ m.time + NOTE_GROUP_TOLERANCE →
            u.time ≤ m.time) ∧
          |n.time - u.time| ≤ NOTE_GROUP_TOLERANCE)) := by
  constructor
  · intro h
    have hne : feed.notes ≠ [] := by
      intro hnil
      exact h (by rw [hnil]; rfl)
    rcases hfa : feed.notes.filter (isSounding feed.current_time) with _ | ⟨a, rest⟩
    · exact absurd hfa h
    have hmem_ar : ∀ x : TimelineNote, x ∈ a :: rest ↔
        x ∈ feed.notes ∧ isSounding feed.current_time x = true := by
      intro x
      rw [← hfa, List.mem_filter]
    have hM_le : ∀ x ∈ a :: rest, (rest.map (·.time)).foldl min a.time ≤ x.time := by
      intro x hx
      rcases List.mem_cons.mp hx with rfl | hx
      · exact foldl_min_le_self _ _
      · exact foldl_min_le_mem _ _ x.time (List.mem_map_of_mem _ hx)
    have hM_mem : ∃ x ∈ a :: rest, x.time = (rest.map (·.time)).foldl min a.time := by
      rcases foldl_min_mem (rest.map (·.time)) a.time with h' | h'
      · exact ⟨a, List.mem_cons_self _ _, h'.symm⟩
      · obtain ⟨x, hx, hx'⟩ := List.mem_map.mp h'
        exact ⟨x, List.mem_cons_of_mem _ hx, hx'⟩
    have hcoll : collect_active_notes feed =
        (a :: rest).filter (fun m => decide (|m.time - (rest.map (·.time)).foldl min a.time|
          ≤ NOTE_GROUP_TOLERANCE)) := by
      simp only [collect_active_notes, if_neg hne, hfa]
    rw [hcoll, List.mem_filter, decide_eq_true_eq]
    constructor
    · rintro ⟨hn_ar, habs⟩
      obtain ⟨hn_notes, hn_sound⟩ := (hmem_ar n).mp hn_ar
      refine ⟨hn_notes, hn_sound, ?_⟩
      intro m hm hm_sound
      have hm_ar : m ∈ a :: rest := (hmem_ar m).mpr ⟨hm, hm_sound⟩
      have h1 := (abs_le.mp habs).2
      have h2 := hM_le m hm_ar
      linarith
    · rintro ⟨hn_notes, hn_sound, hmin⟩
      have hn_ar : n ∈ a :: rest := (hmem_ar n).mpr ⟨hn_notes, hn_sound⟩
      refine ⟨hn_ar, ?_⟩
      obtain ⟨x, hx_ar, hx_time⟩ := hM_mem
      obtain ⟨hx_notes, hx_sound⟩ := (hmem_ar x).mp hx_ar
      have h1 : n.time ≤ x.time + NOTE_GROUP_TOLERANCE := hmin x hx_notes hx_sound
      have h2 := hM_le n hn_ar
      rw [abs_le]
      constructor
      · have := tol_pos
        linarith
      · rw [← hx_time] at h2 ⊢
        linarith
  · intro h
    by_cases hnil : feed.notes = []
    · have hcoll : collect_active_notes feed = [] := by
        rw [collect_active_notes, if_pos hnil]
      rw [hcoll]
      simp [hnil]
    rcases hu : (feed.notes.filter
        (fun m => decide (m.time + NOTE_GROUP_TOLERANCE ≥ feed.current_time))).map (·.time)
        with _ | ⟨u, us⟩
    · have hcoll : collect_active_notes feed = [] := by
        simp only [collect_active_notes, if_neg hnil, h, hu]
      rw [hcoll]
      simp only [List.not_mem_nil, false_iff, not_and]
      intro _
      rintro ⟨u', hu'_mem, hu'_cond, -, -⟩
      have : u' ∈ feed.notes.filter
          (fun m => decide (m.time + NOTE_GROUP_TOLERANCE ≥ feed.current_time)) := by
        rw [List.mem_filter, decide_eq_true_eq]
        exact ⟨hu'_mem, by linarith⟩
      have := List.mem_map_of_mem (·.time) this
      rw [hu] at this
      exact absurd this (List.not_mem_nil _)
    · have hcoll : collect_active_notes feed =
          feed.notes.filter (fun m => decide (|m.time - us.foldl min u|
            ≤ NOTE_GROUP_TOLERANCE)) := by
        simp only [collect_active_notes, if_neg hnil, h, hu]
      have hT_le : ∀ m ∈ feed.notes,
          feed.current_time ≤ m.time + NOTE_GROUP_TOLERANCE → us.foldl min u ≤ m.time := by
        intro m hm hcond
        have hmem : m ∈ feed.notes.filter
            (fun x => decide (x.time + NOTE_GROUP_TOLERANCE ≥ feed.current_time)) := by
          rw [List.mem_filter, decide_eq_true_eq]
          exact ⟨hm, by linarith⟩
        have : m.time ∈ u :: us := by
          rw [← hu]
          exact List.mem_map_of_mem _ hmem
        rcases List.mem_cons.mp this with h' | h'
        · rw [h']
          exact foldl_min_le_self _ _
        · exact foldl_min_le_mem _ _ _ h'
      have hT_mem : ∃ x ∈ feed.notes,
          feed.current_time ≤ x.time + NOTE_GROUP_TOLERANCE ∧ x.time = us.foldl min u := by
        have : us.foldl min u ∈ u :: us := by
          rcases foldl_min_mem us u with h' | h'
          · rw [h']; exact List.mem_cons_self _ _
          · exact List.mem_cons_of_mem _ h'
        rw [← hu] at this
        obtain ⟨x, hx_filter, hx_time⟩ := List.mem_map.mp this
        rw [List.mem_filter, decide_eq_true_eq] at hx_filter
        exact ⟨x, hx_filter.1, by linarith [hx_filter.2], hx_time⟩
      rw [hcoll, List.mem_filter, decide_eq_true_eq]
      constructor
      · rintro ⟨hn_notes, habs⟩
        obtain ⟨x, hx_notes, hx_cond, hx_time⟩ := hT_mem
        refine ⟨hn_notes, x, hx_notes, hx_cond, ?_, by rw [hx_time]; exact habs⟩
        intro m hm hm_cond
        rw [hx_time]
        exact hT_le m hm hm_cond
      · rintro ⟨hn_notes, u'', hu''_mem, hu''_cond, hu''_min, habs⟩
        refine ⟨hn_notes, ?_⟩
        obtain ⟨x, hx_notes, hx_cond, hx_time⟩ := hT_mem
        have h1 : us.foldl min u ≤ u''.time := hT_le u'' hu''_mem hu''_cond
        have h2 : u''.time ≤ x.time := hu''_min x hx_notes hx_cond
        have : u''.time = us.foldl min u := le_antisymm (hx_time ▸ h2) h1
        rw [← this]
        exact habs

/-- Witness for C8: at `c8Feed` some note is sounding, and the characterization of the
sounding branch holds for `noteLong`. -/
theorem c8_active_notes_witness :
    c8Feed.notes.filter (isSounding c8Feed.current_time) ≠ [] ∧
    (noteLong ∈ collect_active_notes c8Feed ↔
      noteLong ∈ c8Feed.notes ∧ isSounding c8Feed.current_time noteLong = true ∧
      ∀ m ∈ c8Feed.notes, isSounding c8Feed.current_time m = true →
        noteLong.time ≤ m.time + NOTE_GROUP_TOLERANCE) := by
  have hfil : c8Feed.notes.filter (isSounding c8Feed.current_time) ≠ [] := by
    norm_num [c8Feed, isSounding, noteLong, noteAtFive, NOTE_GROUP_TOLERANCE, max_def,
      List.filter, List.cons_ne_nil]
  exact ⟨hfil, (c8_active_notes c8Feed noteLong).1 hfil⟩

/-! ## Reconciliation keys (`src/components/string_timeline.rs` lines 106-198)

The key hashes reproduce the `u64` wrapping arithmetic of `NoteKey::new` exactly,
with every wrapping operation taken modulo `2^64`. -/

def U64MOD : ℕ := 2 ^ 64

/-- `(*value as i64 + 64) as u64`: two's-complement reinterpretation of `value + 64`. -/
def i64_as_u64 (x : ℤ) : ℕ := ((x + 64) % (2 ^ 64 : ℤ)).toNat

/-- The technique hash of `NoteKey::new` (lines 116-121). -/
def technique_hash (ts : List Techniques) : ℕ :=
  ts.foldl (fun h t => (h * 31 + (Techniques.code t + 1)) % U64MOD) 0

/-- The additional-fret hash of `NoteKey::new` (lines 122-127). -/
def extra_hash (extras : List ℤ) : ℕ :=
  extras.foldl (fun h e => (h * 41 + i64_as_u64 e) % U64MOD) 0

/-- The slide hash of `NoteKey::new` (lines 128-138). -/
def slide_hash (st su : Option ℤ) : ℕ :=
  let h1 : ℕ :=
    match st with
    | some t => (0 * 53 + i64_as_u64 t) % U64MOD
    | none => 0
  match su with
  | some t => (h1 * 67 + i64_as_u64 t) % U64MOD
  | none => h1

/-- `NoteKey` (string_timeline.rs lines 106-112).  `time_bits = note.time.to_bits()` is
modelled by the time value itself (bit patterns of distinct finite `f32` values are
distinct). -/
structure NoteKey where
  time : ℚ
  string_index : ℕ
  fret : ℤ
  metadata_hash : ℕ
deriving DecidableEq

/-- `NoteKey::new` (string_timeline.rs lines 114-146). -/
def NoteKey.new (note : TimelineNote) : NoteKey :=
  { time := note.time
    string_index := note.string_index
    fret := note.fret
    metadata_hash :=
      ((technique_hash note.techniques * 131 + extra_hash note.additional_frets) % U64MOD
          * 73 + slide_hash note.slide_target note.slide_unpitched_target) % U64MOD }

/-- `SustainSegmentKey` (string_timeline.rs lines 156-168). -/
structure SustainSegmentKey where
  note : NoteKey
  block_index : ℤ
deriving DecidableEq

def SustainSegmentKey.new (note : TimelineNote) (block_index : ℤ) : SustainSegmentKey :=
  ⟨NoteKey.new note, block_index⟩

/-! ## PrimitiveReconciler (`render_notes`, string_timeline.rs lines 1197-1578)

The embedding keeps, for every block row, the key sets of the rendered note markers,
sustain segments and slide segments, plus the created/destroyed instructions of a pass.
Visual attributes of a spawned entity (positions in percent, colors, the terminal-arrow
decoration) depend only on its key's note and block and are not part of the
create/destroy decision, so they are not carried in the state; every condition that
gates creation or destruction is translated. -/

/-- One visual primitive owned by a block row, identified by its content key. -/
inductive Prim where
  | noteMarker (key : NoteKey)
  | sustainSegment (key : SustainSegmentKey)
  | slideSegment (key : SustainSegmentKey)
deriving DecidableEq

/-- `BlockRow` (string_timeline.rs lines 281-286): the rendered key maps, modelled as key
lists (the entity values carry no reconciliation-relevant information). -/
structure BlockRow where
  rendered_notes : List NoteKey
  rendered_sustain_segments : List SustainSegmentKey
  rendered_slide_segments : List SustainSegmentKey
deriving DecidableEq

/-- A block as `render_notes` sees it: its index and its per-string rows. -/
structure RBlock where
  index : ℤ
  rows : List BlockRow
deriving DecidableEq

/-- The block-overlap test of the desired-set loop (lines 1229-1235): skip the note
unless its sustained span intersects the block `[bi·D, bi·D + D)`. -/
def note_overlaps_block (n : TimelineNote) (bi : ℤ) (D : ℚ) : Bool :=
  !(decide (max (n.time + max n.sustain 0) n.time ≤ (bi : ℚ) * D) ||
    decide (n.time ≥ (bi : ℚ) * D + D))

/-- The note-marker condition (lines 1240-1245): the onset lies inside the block. -/
def note_bubble_in_block (n : TimelineNote) (bi : ℤ) (D : ℚ) : Bool :=
  note_overlaps_block n bi D &&
    (decide ((bi : ℚ) * D ≤ n.time) && decide (n.time < (bi : ℚ) * D + D))

/-- `start_percent` of a segment (line 1248-1249). -/
def seg_start_percent (n : TimelineNote) (bi : ℤ) (D : ℚ) : ℚ :=
  clampQ ((max n.time ((bi : ℚ) * D) - (bi : ℚ) * D) / D) 0 1 * 100

/-- `end_percent` of a segment (lines 1250-1251). -/
def seg_end_percent (n : TimelineNote) (bi : ℤ) (D : ℚ) : ℚ :=
  clampQ ((min (max (n.time + max n.sustain 0) n.time) ((bi : ℚ) * D + D) - (bi : ℚ) * D) / D)
    0 1 * 100

/-- `width_percent` of a segment (line 1252). -/
def seg_width_percent (n : TimelineNote) (bi : ℤ) (D : ℚ) : ℚ :=
  max (seg_end_percent n bi D - seg_start_percent n bi D) 0

/-- The segment condition (lines 1247-1253): the overlap is non-degenerate and the width
is positive. -/
def note_has_segment (n : TimelineNote) (bi : ℤ) (D : ℚ) : Bool :=
  note_overlaps_block n bi D &&
    (decide (max n.time ((bi : ℚ) * D) <
        min (max (n.time + max n.sustain 0) n.time) ((bi : ℚ) * D + D)) &&
      decide (0 < seg_width_percent n bi D))

/-- The `terminal` flag of a slide segment (line 1258): the sustained span ends inside
this block, up to `f32::EPSILON`. -/
def seg_terminal (n : TimelineNote) (bi : ℤ) (D : ℚ) : Bool :=
  decide (max (n.time + max n.sustain 0) n.time ≤ (bi : ℚ) * D + D + EPSILON_F32)

/-- The slide-versus-sustain split (lines 1255-1257): a segment is a slide segment when
the note is a slide with a resolved target. -/
def note_is_slide_segment (n : TimelineNote) : Bool :=
  n.is_slide && n.primary_slide_target.isSome

/-- `desired_bubbles[s]` (lines 1217-1245): keys of notes of row `s` whose onset lies in
the block, in feed order.  Notes on a string index at or beyond the row count are
skipped (line 1225-1227). -/
def desired_bubbles (notes : List TimelineNote) (rowsLen : ℕ) (bi : ℤ) (D : ℚ) (s : ℕ) :
    List NoteKey :=
  (notes.filter (fun n => decide (n.string_index < rowsLen) && decide (n.string_index = s)
      && note_bubble_in_block n bi D)).map NoteKey.new

/-- The notes of row `s` that produce a segment in this block. -/
def desired_segment_notes (notes : List TimelineNote) (rowsLen : ℕ) (bi : ℤ) (D : ℚ)
    (s : ℕ) : List TimelineNote :=
  notes.filter (fun n => decide (n.string_index < rowsLen) && decide (n.string_index = s)
    && note_has_segment n bi D)

/-- `desired_sustains[s]` (lines 1268-1275): segment keys of non-slide segments. -/
def desired_sustains (notes : List TimelineNote) (rowsLen : ℕ) (bi : ℤ) (D : ℚ) (s : ℕ) :
    List SustainSegmentKey :=
  ((desired_segment_notes notes rowsLen bi D s).filter
      (fun n => !(note_is_slide_segment n))).map (fun n => SustainSegmentKey.new n bi)

/-- `desired_slide_segments[s]` (lines 1255-1267): segment keys of slide segments. -/
def desired_slides (notes : List TimelineNote) (rowsLen : ℕ) (bi : ℤ) (D : ℚ) (s : ℕ) :
    List SustainSegmentKey :=
  ((desired_segment_notes notes rowsLen bi D s).filter note_is_slide_segment).map
    (fun n => SustainSegmentKey.new n bi)

/-- The create pass over one key kind (lines 1300-1365 and analogues): walk the desired
keys in order; a key already rendered is skipped (`contains_key`), otherwise the entity
is spawned and the key inserted.  Returns the new rendered set and the created keys. -/
def addDesired {κ : Type} [DecidableEq κ] (rendered desired : List κ) : List κ × List κ :=
  desired.foldl (fun acc k => if k ∈ acc.1 then acc else (acc.1 ++ [k], acc.2 ++ [k]))
    (rendered, [])

/-- Result of reconciling one row: the new row state and the created and destroyed
primitives. -/
structure RowResult where
  row : BlockRow
  created : List Prim
  destroyed : List Prim
deriving DecidableEq

/-- Reconciliation of one row (lines 1280-1576): create every desired key that is not
rendered; then — only when the block is not past — destroy every rendered key that is
not desired (lines 1533-1575). -/
def render_row (block_is_past : Bool) (row : BlockRow) (dBub : List NoteKey)
    (dSus dSli : List SustainSegmentKey) : RowResult :=
  let aN := addDesired row.rendered_notes dBub
  let aS := addDesired row.rendered_sustain_segments dSus
  let aL := addDesired row.rendered_slide_segments dSli
  let created := aN.2.map Prim.noteMarker ++ aS.2.map Prim.sustainSegment ++
    aL.2.map Prim.slideSegment
  if block_is_past then
    ⟨⟨aN.1, aS.1, aL.1⟩, created, []⟩
  else
    ⟨⟨aN.1.filter (fun k => k ∈ dBub), aS.1.filter (fun k => k ∈ dSus),
        aL.1.filter (fun k => k ∈ dSli)⟩,
      created,
      (aN.1.filter (fun k => k ∉ dBub)).map Prim.noteMarker ++
        (aS.1.filter (fun k => k ∉ dSus)).map Prim.sustainSegment ++
        (aL.1.filter (fun k => k ∉ dSli)).map Prim.slideSegment⟩

/-- Reconciliation of the rows of one block, string index `s` counting up. -/
def render_rows (past : Bool) (notes : List TimelineNote) (rowsLen : ℕ) (bi : ℤ) (D : ℚ) :
    ℕ → List BlockRow → List RowResult
  | _, [] => []
  | s, r :: rs =>
    render_row past r (desired_bubbles notes rowsLen bi D s)
        (desired_sustains notes rowsLen bi D s) (desired_slides notes rowsLen bi D s) ::
      render_rows past notes rowsLen bi D (s + 1) rs

/-- Result of reconciling one block. -/
structure BlockResult where
  block : RBlock
  created : List Prim
  destroyed : List Prim
deriving DecidableEq

/-- Reconciliation of one block (lines 1208-1577); a block with no rows is skipped
(lines 1209-1211), and `block_is_past = block.index < current_block_index`
(line 1215). -/
def render_block (notes : List TimelineNote) (D : ℚ) (current_block_index : ℤ)
    (b : RBlock) : BlockResult :=
  if b.rows = [] then ⟨b, [], []⟩
  else
    let results := render_rows (decide (b.index < current_block_index)) notes
      b.rows.length b.index D 0 b.rows
    ⟨⟨b.index, results.map (·.row)⟩, results.flatMap (·.created),
      results.flatMap (·.destroyed)⟩

/-- `render_notes` (string_timeline.rs lines 1197-1578) over the windowing state's block
list, with `D = max(feed.block_duration, MIN_BLOCK_DURATION)` (line 1204). -/
def render_notes (feed : StringTimelineFeed) (current_block_index : ℤ)
    (blocks : List RBlock) : List BlockResult :=
  blocks.map (render_block feed.notes (max feed.block_duration MIN_BLOCK_DURATION)
    current_block_index)

theorem addDesired_step_mem {κ : Type} [DecidableEq κ] (desired : List κ) :
    ∀ (acc : List κ × List κ) (x : κ), x ∈ acc.1 →
      x ∈ (desired.foldl
        (fun acc k => if k ∈ acc.1 then acc else (acc.1 ++ [k], acc.2 ++ [k])) acc).1 := by
  induction desired with
  | nil => intro acc x hx; exact hx
  | cons k ks ih =>
    intro acc x hx
    rw [List.foldl_cons]
    apply ih
    by_cases hk : k ∈ acc.1
    · rw [if_pos hk]; exact hx
    · rw [if_neg hk]; exact List.mem_append_left _ hx

theorem addDesired_mem_of_rendered {κ : Type} [DecidableEq κ] {rendered desired : List κ}
    {x : κ} (hx : x ∈ rendered) : x ∈ (addDesired rendered desired).1 :=
  addDesired_step_mem desired (rendered, []) x hx

theorem addDesired_mem_iff_aux {κ : Type} [DecidableEq κ] (desired : List κ) :
    ∀ (acc : List κ × List κ) (x : κ),
      x ∈ (desired.foldl
        (fun acc k => if k ∈ acc.1 then acc else (acc.1 ++ [k], acc.2 ++ [k])) acc).1 ↔
      x ∈ acc.1 ∨ x ∈ desired := by
  induction desired with
  | nil => intro acc x; simp
  | cons k ks ih =>
    intro acc x
    rw [List.foldl_cons, ih]
    by_cases hk : k ∈ acc.1
    · rw [if_pos hk]
      constructor
      · rintro (h | h)
        · exact Or.inl h
        · exact Or.inr (List.mem_cons_of_mem _ h)
      · rintro (h | h)
        · exact Or.inl h
        · rcases List.mem_cons.mp h with rfl | h
          · exact Or.inl hk
          · exact Or.inr h
    · rw [if_neg hk]
      simp only [List.mem_append, List.mem_singleton, List.mem_cons]
      tauto

theorem addDesired_mem_iff {κ : Type} [DecidableEq κ] (rendered desired : List κ) (x : κ) :
    x ∈ (addDesired rendered desired).1 ↔ x ∈ rendered ∨ x ∈ desired :=
  addDesired_mem_iff_aux desired (rendered, []) x

theorem addDesired_fixpoint_aux {κ : Type} [DecidableEq κ] (desired : List κ) :
    ∀ (acc : List κ × List κ), (∀ k ∈ desired, k ∈ acc.1) →
      desired.foldl
        (fun acc k => if k ∈ acc.1 then acc else (acc.1 ++ [k], acc.2 ++ [k])) acc = acc := by
  induction desired with
  | nil => intro acc _; rfl
  | cons k ks ih =>
    intro acc h
    rw [List.foldl_cons, if_pos (h k (List.mem_cons_self _ _))]
    exact ih acc (fun x hx => h x (List.mem_cons_of_mem _ hx))

theorem addDesired_fixpoint {κ : Type} [DecidableEq κ] (rendered desired : List κ)
    (h : ∀ k ∈ desired, k ∈ rendered) : addDesired rendered desired = (rendered, []) :=
  addDesired_fixpoint_aux desired (rendered, []) h

/-- Membership preservation plus empty destruction for a past block's rows. -/
theorem render_rows_past (notes : List TimelineNote) (rowsLen : ℕ) (bi : ℤ) (D : ℚ) :
    ∀ (s : ℕ) (rows : List BlockRow),
      List.Forall₂ (fun (r : BlockRow) (res : RowResult) =>
        res.destroyed = [] ∧
        (∀ k ∈ r.rendered_notes, k ∈ res.row.rendered_notes) ∧
        (∀ k ∈ r.rendered_sustain_segments, k ∈ res.row.rendered_sustain_segments) ∧
        (∀ k ∈ r.rendered_slide_segments, k ∈ res.row.rendered_slide_segments))
        rows (render_rows true notes rowsLen bi D s rows) := by
  intro s rows
  induction rows generalizing s with
  | nil => exact List.Forall₂.nil
  | cons r rs ih =>
    rw [render_rows]
    refine List.Forall₂.cons ?_ (ih (s + 1))
    refine ⟨rfl, ?_, ?_, ?_⟩ <;>
      exact fun k hk => addDesired_mem_of_rendered hk

theorem forall₂_flatMap_destroyed {α : Type} {P : α → RowResult → Prop}
    (h : ∀ a res, P a res → res.destroyed = []) :
    ∀ {l₁ : List α} {l₂ : List RowResult}, List.Forall₂ P l₁ l₂ →
      l₂.flatMap (·.destroyed) = [] := by
  intro l₁ l₂ hf
  induction hf with
  | nil => rfl
  | cons hpq _ ih =>
    rw [List.flatMap_cons, h _ _ hpq, List.nil_append]
    exact ih

theorem forall₂_map_right_of {α β γ : Type} {P : α → β → Prop} {Q : α → γ → Prop}
    (f : β → γ) (h : ∀ a b, P a b → Q a (f b)) :
    ∀ {l₁ : List α} {l₂ : List β}, List.Forall₂ P l₁ l₂ →
      List.Forall₂ Q l₁ (l₂.map f) := by
  intro l₁ l₂ hf
  induction hf with
  | nil => exact List.Forall₂.nil
  | cons hpq _ ih => exact List.Forall₂.cons (h _ _ hpq) ih

/-- Claim C4: for every block whose index is strictly below the current block index, the
reconciliation pass destroys no primitive of that block — every already-rendered note
marker, sustain segment and slide segment key stays rendered, and the block contributes
no destroy instruction — even when its notes are absent from the recomputed desired
set. -/
theorem c4_freeze_past (feed : StringTimelineFeed) (current_block_index : ℤ)
    (blocks : List RBlock) :
    List.Forall₂ (fun (b : RBlock) (res : BlockResult) =>
      b.index < current_block_index →
        res.destroyed = [] ∧
        List.Forall₂ (fun (r r2 : BlockRow) =>
          (∀ k ∈ r.rendered_notes, k ∈ r2.rendered_notes) ∧
          (∀ k ∈ r.rendered_sustain_segments, k ∈ r2.rendered_sustain_segments) ∧
          (∀ k ∈ r.rendered_slide_segments, k ∈ r2.rendered_slide_segments))
          b.rows res.block.rows)
      blocks (render_notes feed current_block_index blocks) := by
  unfold render_notes
  induction blocks with
  | nil => exact List.Forall₂.nil
  | cons b bs ih =>
    rw [List.map_cons]
    refine List.Forall₂.cons ?_ ih
    intro hpast
    by_cases hrows : b.rows = []
    · rw [render_block, if_pos hrows]
      exact ⟨rfl, by rw [hrows]; exact List.Forall₂.nil⟩
    · rw [render_block, if_neg hrows]
      have hdec : decide (b.index < current_block_index) = true := decide_eq_true hpast
      rw [hdec]
      have hrr := render_rows_past feed.notes b.rows.length b.index
        (max feed.block_duration MIN_BLOCK_DURATION) 0 b.rows
      constructor
      · exact forall₂_flatMap_destroyed (fun a res h => h.1) hrr
      · refine forall₂_map_right_of (·.row) ?_ hrr
        intro a res h
        exact h.2

/-- A pre-rendered key used by the C4 witness. -/
def c4Key : NoteKey := { time := 0, string_index := 0, fret := 3, metadata_hash := 0 }

/-- The C4 witness block: index 0 with one row already holding `c4Key`. -/
def c4Block : RBlock := ⟨0, [⟨[c4Key], [], []⟩]⟩

/-- The C4 witness feed: an empty note list, so the recomputed desired set is empty. -/
def c4Feed : StringTimelineFeed :=
  { string_count := 1, notes := [], current_time := 15, block_duration := 10 }

/-- Witness for C4: with current block index 1, block 0 is past; reconciling against an
empty desired set destroys nothing and keeps `c4Key` rendered. -/
theorem c4_freeze_past_witness :
    List.Forall₂ (fun (b : RBlock) (res : BlockResult) =>
      b.index < 1 →
        res.destroyed = [] ∧
        List.Forall₂ (fun (r r2 : BlockRow) =>
          (∀ k ∈ r.rendered_notes, k ∈ r2.rendered_notes) ∧
          (∀ k ∈ r.rendered_sustain_segments, k ∈ r2.rendered_sustain_segments) ∧
          (∀ k ∈ r.rendered_slide_segments, k ∈ r2.rendered_slide_segments))
          b.rows res.block.rows)
      [c4Block] (render_notes c4Feed 1 [c4Block]) :=
  c4_freeze_past c4Feed 1 [c4Block]

theorem mem_filter_mem {κ : Type} [DecidableEq κ] (l d : List κ) (x : κ) :
    x ∈ l.filter (fun k => k ∈ d) ↔ x ∈ l ∧ x ∈ d := by
  rw [List.mem_filter]
  simp

/-- Running a row reconciliation a second time on its own output creates and destroys
nothing. -/
theorem render_row_idempotent (past : Bool) (row : BlockRow) (dBub : List NoteKey)
    (dSus dSli : List SustainSegmentKey) :
    (render_row past (render_row past row dBub dSus dSli).row dBub dSus dSli).created = [] ∧
    (render_row past (render_row past row dBub dSus dSli).row dBub dSus dSli).destroyed
      = [] := by
  cases past with
  | true =>
    have hrow1 : (render_row true row dBub dSus dSli).row =
        ⟨(addDesired row.rendered_notes dBub).1,
         (addDesired row.rendered_sustain_segments dSus).1,
         (addDesired row.rendered_slide_segments dSli).1⟩ := rfl
    rw [hrow1]
    have hN := addDesired_fixpoint (addDesired row.rendered_notes dBub).1 dBub
      (fun k hk => (addDesired_mem_iff _ _ k).mpr (Or.inr hk))
    have hS := addDesired_fixpoint (addDesired row.rendered_sustain_segments dSus).1 dSus
      (fun k hk => (addDesired_mem_iff _ _ k).mpr (Or.inr hk))
    have hL := addDesired_fixpoint (addDesired row.rendered_slide_segments dSli).1 dSli
      (fun k hk => (addDesired_mem_iff _ _ k).mpr (Or.inr hk))
    constructor
    · show ((addDesired _ dBub).2.map Prim.noteMarker ++
        (addDesired _ dSus).2.map Prim.sustainSegment ++
        (addDesired _ dSli).2.map Prim.slideSegment) = []
      rw [hN, hS, hL]
      rfl
    · rfl
  | false =>
    have hrow1 : (render_row false row dBub dSus dSli).row =
        ⟨(addDesired row.rendered_notes dBub).1.filter (fun k => k ∈ dBub),
         (addDesired row.rendered_sustain_segments dSus).1.filter (fun k => k ∈ dSus),
         (addDesired row.rendered_slide_segments dSli).1.filter (fun k => k ∈ dSli)⟩ := rfl
    rw [hrow1]
    have hNmem : ∀ k ∈ dBub,
        k ∈ (addDesired row.rendered_notes dBub).1.filter (fun k => k ∈ dBub) :=
      fun k hk => (mem_filter_mem _ _ k).mpr
        ⟨(addDesired_mem_iff _ _ k).mpr (Or.inr hk), hk⟩
    have hSmem : ∀ k ∈ dSus,
        k ∈ (addDesired row.rendered_sustain_segments dSus).1.filter (fun k => k ∈ dSus) :=
      fun k hk => (mem_filter_mem _ _ k).mpr
        ⟨(addDesired_mem_iff _ _ k).mpr (Or.inr hk), hk⟩
    have hLmem : ∀ k ∈ dSli,
        k ∈ (addDesired row.rendered_slide_segments dSli).1.filter (fun k => k ∈ dSli) :=
      fun k hk => (mem_filter_mem _ _ k).mpr
        ⟨(addDesired_mem_iff _ _ k).mpr (Or.inr hk), hk⟩
    have hN := addDesired_fixpoint _ dBub hNmem
    have hS := addDesired_fixpoint _ dSus hSmem
    have hL := addDesired_fixpoint _ dSli hLmem
    constructor
    · show ((addDesired _ dBub).2.map Prim.noteMarker ++
        (addDesired _ dSus).2.map Prim.sustainSegment ++
        (addDesired _ dSli).2.map Prim.slideSegment) = []
      rw [hN, hS, hL]
      rfl
    · show (((addDesired _ dBub).1.filter (fun k => k ∉ dBub)).map Prim.noteMarker ++
        ((addDesired _ dSus).1.filter (fun k => k ∉ dSus)).map Prim.sustainSegment ++
        ((addDesired _ dSli).1.filter (fun k => k ∉ dSli)).map Prim.slideSegment) = []
      rw [hN, hS, hL]
      have eN : ((addDesired row.rendered_notes dBub).1.filter
          (fun k => k ∈ dBub)).filter (fun k => k ∉ dBub) = [] := by
        rw [List.filter_filter]
        apply List.filter_eq_nil_iff.mpr
        intro a _
        simp
      have eS : ((addDesired row.rendered_sustain_segments dSus).1.filter
          (fun k => k ∈ dSus)).filter (fun k => k ∉ dSus) = [] := by
        rw [List.filter_filter]
        apply List.filter_eq_nil_iff.mpr
        intro a _
        simp
      have eL : ((addDesired row.rendered_slide_segments dSli).1.filter
          (fun k => k ∈ dSli)).filter (fun k => k ∉ dSli) = [] := by
        rw [List.filter_filter]
        apply List.filter_eq_nil_iff.mpr
        intro a _
        simp
      rw [eN, eS, eL]
      rfl

theorem render_rows_length (past : Bool) (notes : List TimelineNote) (rowsLen : ℕ)
    (bi : ℤ) (D : ℚ) : ∀ (s : ℕ) (rows : List BlockRow),
    (render_rows past notes rowsLen bi D s rows).length = rows.length := by
  intro s rows
  induction rows generalizing s with
  | nil => rfl
  | cons r rs ih => rw [render_rows]; simp [ih]

theorem render_rows_idempotent (past : Bool) (notes : List TimelineNote) (rowsLen : ℕ)
    (bi : ℤ) (D : ℚ) : ∀ (s : ℕ) (rows : List BlockRow),
    ((render_rows past notes rowsLen bi D s
        ((render_rows past notes rowsLen bi D s rows).map (·.row))).flatMap (·.created)
      = []) ∧
    ((render_rows past notes rowsLen bi D s
        ((render_rows past notes rowsLen bi D s rows).map (·.row))).flatMap (·.destroyed)
      = []) := by
  intro s rows
  induction rows generalizing s with
  | nil => exact ⟨rfl, rfl⟩
  | cons r rs ih =>
    rw [render_rows, List.map_cons, render_rows]
    obtain ⟨ihc, ihd⟩ := ih (s + 1)
    obtain ⟨hc, hd⟩ := render_row_idempotent past r (desired_bubbles notes rowsLen bi D s)
      (desired_sustains notes rowsLen bi D s) (desired_slides notes rowsLen bi D s)
    constructor
    · rw [List.flatMap_cons, hc, List.nil_append]
      exact ihc
    · rw [List.flatMap_cons, hd, List.nil_append]
      exact ihd

theorem render_block_idempotent (notes : List TimelineNote) (D : ℚ) (cur : ℤ)
    (b : RBlock) :
    (render_block notes D cur (render_block notes D cur b).block).created = [] ∧
    (render_block notes D cur (render_block notes D cur b).block).destroyed = [] := by
  by_cases hrows : b.rows = []
  · have h1 : render_block notes D cur b = ⟨b, [], []⟩ := by
      rw [render_block, if_pos hrows]
    rw [h1]
    have h2 : render_block notes D cur b = ⟨b, [], []⟩ := h1
    rw [h2]
    exact ⟨rfl, rfl⟩
  · have h1 : (render_block notes D cur b).block =
        ⟨b.index, (render_rows (decide (b.index < cur)) notes b.rows.length b.index D 0
          b.rows).map (·.row)⟩ := by
      rw [render_block, if_neg hrows]
    rw [h1]
    have hlen : ((render_rows (decide (b.index < cur)) notes b.rows.length b.index D 0
        b.rows).map (·.row)).length = b.rows.length := by
      rw [List.length_map, render_rows_length]
    have hne2 : (render_rows (decide (b.index < cur)) notes b.rows.length b.index D 0
        b.rows).map (·.row) ≠ [] := by
      intro h
      rw [h] at hlen
      exact hrows (List.length_eq_zero.mp hlen.symm)
    rw [render_block, if_neg hne2]
    simp only [hlen]
    obtain ⟨hc, hd⟩ := render_rows_idempotent (decide (b.index < cur)) notes b.rows.length
      b.index D 0 b.rows
    exact ⟨hc, hd⟩

/-- Claim C5: reconciling twice with identical feed, block set and current block index
produces no create and no destroy instruction on the second pass — every desired key is
already rendered after the first pass and no rendered key is stale. -/
theorem c5_idempotent (feed : StringTimelineFeed) (current_block_index : ℤ)
    (blocks : List RBlock) :
    ((render_notes feed current_block_index
        ((render_notes feed current_block_index blocks).map (·.block))).flatMap (·.created)
      = []) ∧
    ((render_notes feed current_block_index
        ((render_notes feed current_block_index blocks).map (·.block))).flatMap
      (·.destroyed) = []) := by
  unfold render_notes
  rw [List.map_map, List.map_map]
  induction blocks with
  | nil => exact ⟨rfl, rfl⟩
  | cons b bs ih =>
    rw [List.map_cons]
    obtain ⟨ihc, ihd⟩ := ih
    obtain ⟨hc, hd⟩ := render_block_idempotent feed.notes
      (max feed.block_duration MIN_BLOCK_DURATION) current_block_index b
    constructor
    · simp only [List.flatMap_cons, Function.comp_apply]
      rw [hc, List.nil_append]
      exact ihc
    · simp only [List.flatMap_cons, Function.comp_apply]
      rw [hd, List.nil_append]
      exact ihd

/-! ## FretContextView marker reconciliation
(`src/components/string_timeline.rs` lines 149-226, 1580-1818, 1996-2051) -/

/-- `FretMarkerRole` (string_timeline.rs lines 149-154). -/
inductive FretMarkerRole where
  | Primary
  | Additional (fret : ℤ)
  | SlideBar
deriving DecidableEq

/-- `FretMarkerKey` (string_timeline.rs lines 171-198). -/
structure FretMarkerKey where
  note : NoteKey
  role : FretMarkerRole
deriving DecidableEq

/-- `FretRange` (string_timeline.rs lines 200-204); `end` is spelled `stop`. -/
structure FretRange where
  start : ℤ
  stop : ℤ
deriving DecidableEq

/-- The widening loop of `FretRange::new` (lines 211-219): while the span is below
`MIN_FRET_SPAN`, move `start` down (not below 0), break if that suffices, else move
`stop` up. -/
def fretRangeWiden (s e : ℤ) : ℤ × ℤ :=
  if h : e - s < MIN_FRET_SPAN then
    let s2 := if 0 < s then s - 1 else s
    if MIN_FRET_SPAN ≤ e - s2 then (s2, e)
    else fretRangeWiden s2 (e + 1)
  else (s, e)
termination_by (MIN_FRET_SPAN - (e - s)).toNat
decreasing_by
  simp only [MIN_FRET_SPAN] at *
  split_ifs at * <;> omega

/-- `FretRange::new` (string_timeline.rs lines 206-221). -/
def FretRange.new (start0 end0 : ℤ) : FretRange :=
  let s := if start0 > end0 then end0 else start0
  let e := if start0 > end0 then start0 else end0
  let p := fretRangeWiden s e
  ⟨p.1, p.2⟩

/-- `FretRange::span` (lines 223-225): `(end - start + 1).max(1)`. -/
def FretRange.span (r : FretRange) : ℕ := (max (r.stop - r.start + 1) 1).toNat

/-- `compute_fret_range` (string_timeline.rs lines 1996-2018): the min and max over all
non-negative primary and additional frets of the active notes; `none` when there is no
such fret.  The `i32::MAX`/`i32::MIN` sentinels of the source are modelled by folding
from the first candidate. -/
def compute_fret_range (notes : List TimelineNote) : Option FretRange :=
  match notes.flatMap (fun n => (if 0 ≤ n.fret then [n.fret] else []) ++
    n.additional_frets.filter (fun e => 0 ≤ e)) with
  | [] => none
  | f :: fs => some (FretRange.new (fs.foldl min f) (fs.foldl max f))

/-- `fret_left_percent` (string_timeline.rs lines 2044-2051). -/
def fret_left_percent (fret : ℤ) (range : FretRange) : ℚ :=
  if (range.span : ℚ) ≤ EPSILON_F32 then 50
  else (((fret - range.start : ℤ) : ℚ) + 1/2) / (range.span : ℚ) * 100

/-- `string_position_percent` (string_timeline.rs lines 2036-2042). -/
def string_position_percent (string_index string_count : ℕ) : ℚ :=
  if string_count ≤ 1 then 50
  else ((string_index : ℚ) / ((string_count : ℚ) - 1)) * 100

/-- The marker-spawning state of `update_fret_view`: the `occupied` set (string, fret,
is-primary triples) and the spawned circle markers and slide bars. -/
structure FretSpawnState where
  occupied : List (ℕ × ℤ × Bool)
  markers : List (FretMarkerKey × ℤ)
  bars : List FretMarkerKey
deriving DecidableEq

/-- `maybe_spawn_marker` (string_timeline.rs lines 1663-1741): skip negative frets and
already-occupied positions, otherwise record the marker under its role key. -/
def maybe_spawn_marker (n : TimelineNote) (fret_value : ℤ) (role : FretMarkerRole)
    (primary : Bool) (st : FretSpawnState) : FretSpawnState :=
  if fret_value < 0 then st
  else if (n.string_index, fret_value, primary) ∈ st.occupied then st
  else
    { st with
      occupied := st.occupied ++ [(n.string_index, fret_value, primary)]
      markers := st.markers ++ [(⟨NoteKey.new n, role⟩, fret_value)] }

/-- The slide-bar spawn of `update_fret_view` (lines 1749-1807): an in-progress slide
with positive progress and positive bar width adds a `SlideBar`-keyed bar.  Note that
this path has no negative-fret guard. -/
def spawn_slide_bar (n : TimelineNote) (current_time : ℚ) (range : FretRange)
    (st : FretSpawnState) : FretSpawnState :=
  if n.is_slide then
    match n.primary_slide_target with
    | some target_fret =>
      if n.sustain > EPSILON_F32 then
        let progress := clampQ ((current_time - n.time) / n.sustain) 0 1
        if progress > 0 then
          let start_percent := fret_left_percent n.fret range
          let target_percent := fret_left_percent target_fret range
          let current_percent := start_percent + (target_percent - start_percent) * progress
          let width_percent := |current_percent - start_percent|
          if width_percent > 0 then
            { st with bars := st.bars ++ [⟨NoteKey.new n, FretMarkerRole.SlideBar⟩] }
          else st
        else st
      else st
    | none => st
  else st

/-- The per-note body of the marker loop of `update_fret_view` (lines 1658-1808): notes
on a string index at or beyond the string count are skipped; then the primary marker,
the additional markers, and possibly a slide bar are spawned. -/
def fret_marker_note_pass (string_count : ℕ) (current_time : ℚ) (range : FretRange)
    (st : FretSpawnState) (n : TimelineNote) : FretSpawnState :=
  if n.string_index ≥ string_count then st
  else
    spawn_slide_bar n current_time range
      (n.additional_frets.foldl
        (fun st extra => maybe_spawn_marker n extra (FretMarkerRole.Additional extra)
          false st)
        (maybe_spawn_marker n n.fret FretMarkerRole.Primary true st))

/-- The whole marker loop of `update_fret_view` over the active notes. -/
def fret_marker_pass (active : List TimelineNote) (string_count : ℕ) (current_time : ℚ)
    (range : FretRange) : FretSpawnState :=
  active.foldl (fret_marker_note_pass string_count current_time range) ⟨[], [], []⟩

theorem filter_and_absorb (notes : List TimelineNote) (p q : TimelineNote → Bool)
    (h : ∀ n, p n = true → q n = true) :
    (notes.filter q).filter p = notes.filter p := by
  rw [List.filter_filter]
  apply List.filter_congr
  intro a _
  by_cases hp : p a = true
  · rw [hp, h a hp]
    rfl
  · rw [Bool.eq_false_iff.mpr hp]
    simp

theorem desired_bubbles_filter_invalid (notes : List TimelineNote) (rowsLen : ℕ) (bi : ℤ)
    (D : ℚ) (s : ℕ) :
    desired_bubbles (notes.filter (fun n => decide (n.string_index < rowsLen))) rowsLen
        bi D s = desired_bubbles notes rowsLen bi D s := by
  unfold desired_bubbles
  rw [filter_and_absorb]
  intro n hp
  rw [Bool.and_eq_true, Bool.and_eq_true] at hp
  exact hp.1.1

theorem desired_segment_notes_filter_invalid (notes : List TimelineNote) (rowsLen : ℕ)
    (bi : ℤ) (D : ℚ) (s : ℕ) :
    desired_segment_notes (notes.filter (fun n => decide (n.string_index < rowsLen)))
        rowsLen bi D s = desired_segment_notes notes rowsLen bi D s := by
  unfold desired_segment_notes
  rw [filter_and_absorb]
  intro n hp
  rw [Bool.and_eq_true, Bool.and_eq_true] at hp
  exact hp.1.1

theorem render_rows_filter_invalid (notes : List TimelineNote) (rowsLen : ℕ) (bi : ℤ)
    (D : ℚ) (past : Bool) : ∀ (s : ℕ) (rows : List BlockRow),
    render_rows past (notes.filter (fun n => decide (n.string_index < rowsLen))) rowsLen
        bi D s rows = render_rows past notes rowsLen bi D s rows := by
  intro s rows
  induction rows generalizing s with
  | nil => rfl
  | cons r rs ih =>
    rw [render_rows, render_rows, ih (s + 1), desired_bubbles_filter_invalid]
    unfold desired_sustains desired_slides
    rw [desired_segment_notes_filter_invalid]

/-- Part (a) of the amended claim C9: notes whose string index is at or beyond the row
count contribute nothing to the reconciliation of any block whose row count matches the
string count. -/
theorem render_notes_filter_invalid (feed : StringTimelineFeed) (cur : ℤ)
    (blocks : List RBlock) (hrows : ∀ b ∈ blocks, b.rows.length = feed.string_count) :
    render_notes { feed with notes := (feed.notes.filter
        (fun n => decide (n.string_index < feed.string_count))) } cur blocks =
      render_notes feed cur blocks := by
  unfold render_notes
  apply List.map_congr_left
  intro b hb
  by_cases hempty : b.rows = []
  · rw [render_block, render_block, if_pos hempty, if_pos hempty]
  · rw [render_block, render_block, if_neg hempty, if_neg hempty]
    have hlen : b.rows.length = feed.string_count := hrows b hb
    rw [show ({ feed with notes := (feed.notes.filter
        (fun n => decide (n.string_index < feed.string_count))) } : StringTimelineFeed).notes
      = feed.notes.filter (fun n => decide (n.string_index < b.rows.length)) by
        rw [hlen]]
    rw [render_rows_filter_invalid]

theorem foldl_preserve {α σ : Type} (P : σ → Prop) (f : σ → α → σ) (l : List α) (init : σ)
    (h0 : P init) (hstep : ∀ st x, x ∈ l → P st → P (f st x)) : P (l.foldl f init) := by
  induction l generalizing init with
  | nil => exact h0
  | cons x xs ih =>
    rw [List.foldl_cons]
    exact ih (f init x) (hstep init x (List.mem_cons_self _ _) h0)
      (fun st y hy => hstep st y (List.mem_cons_of_mem _ hy))

theorem spawn_slide_bar_markers (n : TimelineNote) (t : ℚ) (range : FretRange)
    (st : FretSpawnState) : (spawn_slide_bar n t range st).markers = st.markers := by
  dsimp only [spawn_slide_bar]
  repeat' split
  all_goals rfl

theorem maybe_spawn_marker_sound (sc : ℕ) (n : TimelineNote) (fv : ℤ)
    (role : FretMarkerRole) (primary : Bool) (st : FretSpawnState)
    (hP : ∀ k f, (k, f) ∈ st.markers → 0 ≤ f ∧ k.note.string_index < sc)
    (hn : n.string_index < sc) :
    ∀ k f, (k, f) ∈ (maybe_spawn_marker n fv role primary st).markers →
      0 ≤ f ∧ k.note.string_index < sc := by
  intro k f hk
  unfold maybe_spawn_marker at hk
  split at hk
  · exact hP k f hk
  · split at hk
    · exact hP k f hk
    · simp only [List.mem_append, List.mem_singleton] at hk
      rcases hk with hk | hk
      · exact hP k f hk
      · rename_i hneg _
        rw [Prod.mk.injEq] at hk
        obtain ⟨rfl, rfl⟩ := hk
        exact ⟨by omega, hn⟩

/-- Part (b) of the amended claim C9: every circle fret marker spawned by the fret view
has a non-negative fret value and belongs to a note with a valid string index. -/
theorem fret_marker_pass_sound (active : List TimelineNote) (sc : ℕ) (t : ℚ)
    (range : FretRange) :
    ∀ k f, (k, f) ∈ (fret_marker_pass active sc t range).markers →
      0 ≤ f ∧ k.note.string_index < sc := by
  unfold fret_marker_pass
  refine foldl_preserve (fun st => ∀ k f, (k, f) ∈ st.markers →
    0 ≤ f ∧ k.note.string_index < sc) (fret_marker_note_pass sc t range) active
    ⟨[], [], []⟩ ?_ ?_
  · intro k f hk
    exact absurd hk (List.not_mem_nil _)
  · intro st n _ hP
    unfold fret_marker_note_pass
    split
    · exact hP
    · rename_i hsc
      rw [not_le] at hsc
      intro k f hk
      rw [spawn_slide_bar_markers] at hk
      revert hk
      revert f k
      refine foldl_preserve (fun st => ∀ k f, (k, f) ∈ st.markers →
        0 ≤ f ∧ k.note.string_index < sc) _ n.additional_frets
        (maybe_spawn_marker n n.fret FretMarkerRole.Primary true st) ?_ ?_
      · exact maybe_spawn_marker_sound sc n n.fret FretMarkerRole.Primary true st hP hsc
      · intro st2 extra _ hP2
        exact maybe_spawn_marker_sound sc n extra (FretMarkerRole.Additional extra) false
          st2 hP2 hsc

/-- Claim C9 (amended): a note with string index at or beyond the declared string count
produces no primitive anywhere (dropping such notes leaves every reconciliation result
unchanged), and the fret view's circle markers are only ever spawned for non-negative
fret values of valid-string notes; both silently, with no error.  (A negative primary
fret suppresses only the fret-view marker: the timeline still renders a note marker for
it — see the counterexample.) -/
theorem c9_invalid_input (feed : StringTimelineFeed) (cur : ℤ) (blocks : List RBlock)
    (active : List TimelineNote) (sc : ℕ) (t : ℚ) (range : FretRange)
    (hrows : ∀ b ∈ blocks, b.rows.length = feed.string_count) :
    (render_notes { feed with notes := (feed.notes.filter
        (fun n => decide (n.string_index < feed.string_count))) } cur blocks =
      render_notes feed cur blocks) ∧
    (∀ k f, (k, f) ∈ (fret_marker_pass active sc t range).markers →
      0 ≤ f ∧ k.note.string_index < sc) :=
  ⟨render_notes_filter_invalid feed cur blocks hrows,
   fret_marker_pass_sound active sc t range⟩

/-- The negative-fret note of the C9 counterexample. -/
def c9Note : TimelineNote :=
  { time := 1, sustain := 0, string_index := 0, fret := -1, techniques := [],
    additional_frets := [], slide_target := none, slide_unpitched_target := none }

/-- The C9 feed: one note with the `-1` sentinel fret. -/
def c9Feed : StringTimelineFeed :=
  { string_count := 1, notes := [c9Note], current_time := 0, block_duration := 10 }

/-- An empty block 0 with a single row. -/
def c9Block : RBlock := ⟨0, [⟨[], [], []⟩]⟩

/-- Claim C9 (counterexample): the `-1`-fret note is NOT dropped by the timeline
reconciler — rendering block 0 creates a note marker for it. -/
theorem c9_counterexample :
    c9Note.fret < 0 ∧
    (render_notes c9Feed 0 [c9Block]).flatMap (·.created) =
      [Prim.noteMarker (NoteKey.new c9Note)] := by
  constructor
  · norm_num [c9Note]
  · norm_num [render_notes, render_block, render_rows, render_row, addDesired,
      desired_bubbles, desired_sustains, desired_slides, desired_segment_notes,
      note_bubble_in_block, note_overlaps_block, note_has_segment, note_is_slide_segment,
      TimelineNote.is_slide, TimelineNote.primary_slide_target, c9Feed, c9Block, c9Note,
      MIN_BLOCK_DURATION, List.filter, max_def, min_def, seg_width_percent,
      seg_start_percent, seg_end_percent, clampQ, List.cons_ne_nil]

/-- Witness for C9: the amended theorem applied at the concrete one-note feed with a
matching one-row block. -/
theorem c9_invalid_input_witness :
    (∀ b ∈ [c9Block], b.rows.length = c9Feed.string_count) ∧
    ((render_notes { c9Feed with notes := (c9Feed.notes.filter
        (fun n => decide (n.string_index < c9Feed.string_count))) } 0 [c9Block] =
      render_notes c9Feed 0 [c9Block]) ∧
    (∀ k f, (k, f) ∈ (fret_marker_pass [c9Note] 1 0 (FretRange.new 0 4)).markers →
      0 ≤ f ∧ k.note.string_index < 1)) := by
  have hrows : ∀ b ∈ [c9Block], b.rows.length = c9Feed.string_count := by
    intro b hb
    rw [List.mem_singleton] at hb
    rw [hb, c9Block, c9Feed]
    rfl
  exact ⟨hrows, c9_invalid_input c9Feed 0 [c9Block] [c9Note] 1 0 (FretRange.new 0 4) hrows⟩

/-! ## BlockWindowManager (`update_timeline`, string_timeline.rs lines 731-1056)

The windowing state machine is embedded as a pure step function over the fields of
`StringTimelineView` that decide which blocks exist: the block list (index plus
`is_removing` flag), the base block index, the cached string count, and the shift
animation.  Entity handles, layout freezing (heights, paddings), overlay and indicator
updates are UI-only and omitted; every branch that changes the modelled fields is
translated. -/

/-- A block as the window manager sees it (`BlockView`, lines 271-279). -/
structure MBlock where
  index : ℤ
  isRemoving : Bool
deriving DecidableEq

/-- `ShiftAnimation` (lines 914-921), without the frozen height/padding floats, which
only drive the collapse visuals. -/
structure ShiftAnimation where
  targetBaseIndex : ℤ
  removingIndex : ℤ
  duration : ℚ
  elapsed : ℚ
deriving DecidableEq

/-- The windowing fields of `StringTimelineView` (lines 245-269). -/
structure ViewState where
  blocks : List MBlock
  baseBlockIndex : ℤ
  cachedStringCount : ℕ
  shiftAnimation : Option ShiftAnimation
deriving DecidableEq

/-- `clear_all_blocks` (string_timeline.rs lines 2162-2168). -/
def clear_all_blocks (v : ViewState) : ViewState :=
  { v with
    blocks := []
    baseBlockIndex := 0
    shiftAnimation := none }

/-- `unfreeze_remaining_blocks` (lines 1003-1015): clear every `is_removing` flag; the
layout restoration is UI-only. -/
def unfreeze_remaining_blocks (v : ViewState) : ViewState :=
  { v with blocks := v.blocks.map (fun b => { b with isRemoving := false }) }

/-- `progress_shift_animation` (string_timeline.rs lines 926-974): advance the elapsed
time; if the outgoing block vanished, finish immediately; at 100 % progress remove the
outgoing block, advance the base to the animation target and unfreeze. -/
def progress_shift_animation (v : ViewState) (delta_seconds : ℚ) : ViewState :=
  match v.shiftAnimation with
  | none => v
  | some a =>
    let elapsed := a.elapsed + delta_seconds
    let progress := clampQ (elapsed / a.duration) 0 1
    if (v.blocks.find? (fun b => b.index == a.removingIndex)).isNone then
      unfreeze_remaining_blocks
        { v with
          baseBlockIndex := a.targetBaseIndex
          shiftAnimation := none }
    else if progress ≥ 1 then
      unfreeze_remaining_blocks
        { v with
          blocks := v.blocks.eraseP (fun b => b.index == a.removingIndex)
          baseBlockIndex := a.targetBaseIndex
          shiftAnimation := none }
    else { v with shiftAnimation := some { a with elapsed := elapsed } }

/-- `start_shift_animation` (string_timeline.rs lines 870-924), as a partial state
update: `none` models the `false` return (an animation is already running, or no
non-removing block sits at the base index); `some` marks the base block as removing and
installs the animation.  The height/padding freezing is UI-only. -/
def start_shift_animation (v : ViewState) (target_base_index : ℤ) : Option ViewState :=
  if v.shiftAnimation.isSome then none
  else if v.blocks.any (fun b => b.index == v.baseBlockIndex && !b.isRemoving) then
    some { v with
      blocks := v.blocks.map (fun b =>
        if b.index == v.baseBlockIndex then { b with isRemoving := true } else b)
      shiftAnimation := some ⟨target_base_index, v.baseBlockIndex, BLOCK_SHIFT_DURATION, 0⟩ }
  else none

/-- `ensure_blocks` (string_timeline.rs lines 1017-1056): retain the blocks inside the
window `[base, base + VISIBLE_BLOCKS)`, spawn the missing indices, and sort by index. -/
def ensure_blocks (v : ViewState) : ViewState :=
  let desired := (List.range VISIBLE_BLOCKS).map (fun o : ℕ => v.baseBlockIndex + (o : ℤ))
  let kept := v.blocks.filter (fun b => b.index ∈ desired)
  let blocks := desired.foldl
    (fun bs i => if bs.any (fun b => b.index == i) then bs else bs ++ [⟨i, false⟩]) kept
  { v with blocks := blocks.insertionSort (fun a b => a.index ≤ b.index) }

/-- `(feed.current_time / block_duration).floor().max(0.0) as i32` with the
`max(MIN_BLOCK_DURATION)` guard of line 767 (update_timeline lines 767-768). -/
def currentBlockIndex (current_time block_duration : ℚ) : ℤ :=
  max ⌊current_time / max block_duration MIN_BLOCK_DURATION⌋ 0

/-- The within-block progress fraction (update_timeline lines 769-771). -/
def blockProgress (current_time block_duration : ℚ) : ℚ :=
  clampQ ((current_time - (currentBlockIndex current_time block_duration : ℚ) *
      max block_duration MIN_BLOCK_DURATION) / max block_duration MIN_BLOCK_DURATION) 0 1

/-- The base-advance decision of `update_timeline` (lines 773-816): reset the base when
the block list is empty; snap back on a backward seek with no animation; otherwise
either decide a new desired base (catch-up jump past the window, or the ≥ 95 % advance
rule) and start a shift animation — falling back to a direct jump when it cannot start —
or, with an animation in flight, extend its target when playback has passed the
window. -/
def window_decision (v : ViewState) (current : ℤ) (block_progress : ℚ) : ViewState :=
  let v := if v.blocks = [] then { v with baseBlockIndex := current } else v
  let v := if current < v.baseBlockIndex ∧ v.shiftAnimation = none then
    { v with baseBlockIndex := current } else v
  match v.shiftAnimation with
  | none =>
    let visible_blocks : ℤ := (max VISIBLE_BLOCKS 1 : ℕ)
    let last_block_index := v.baseBlockIndex + visible_blocks - 1
    let threshold_block := v.baseBlockIndex + max (visible_blocks - 2) 0
    let desired_base :=
      if current > last_block_index then current - (visible_blocks - 1)
      else if current ≥ threshold_block ∧ block_progress ≥ 95/100 then
        max (v.baseBlockIndex + 1) 0
      else v.baseBlockIndex
    if desired_base > v.baseBlockIndex then
      match start_shift_animation v desired_base with
      | some v2 => v2
      | none => { v with baseBlockIndex := desired_base }
    else { v with baseBlockIndex := desired_base }
  | some a =>
    let visible_blocks : ℤ := (max VISIBLE_BLOCKS 1 : ℕ)
    let last_block_index := v.baseBlockIndex + visible_blocks - 1
    if current > last_block_index then
      { v with shiftAnimation := some { a with
          targetBaseIndex := max (current - (visible_blocks - 1)) a.targetBaseIndex } }
    else v

/-- The windowing portion of one `update_timeline` frame (lines 731-868): progress the
shift animation with the frame delta, then either clear everything (zero string count)
or clear on a string-count change, run the base-advance decision and re-establish the
window's blocks. -/
def update_timeline_step (v : ViewState) (delta_seconds current_time block_duration : ℚ)
    (string_count : ℕ) : ViewState :=
  let v := progress_shift_animation v delta_seconds
  if string_count = 0 then clear_all_blocks v
  else
    let v := if string_count ≠ v.cachedStringCount then
      { clear_all_blocks v with cachedStringCount := string_count } else v
    ensure_blocks (window_decision v (currentBlockIndex current_time block_duration)
      (blockProgress current_time block_duration))

theorem mem_fold_spawn (ds : List ℤ) : ∀ (bs : List MBlock) (i : ℤ),
    (∃ b ∈ ds.foldl
        (fun bs i => if bs.any (fun b => b.index == i) then bs else bs ++ [⟨i, false⟩]) bs,
      b.index = i) ↔ (∃ b ∈ bs, b.index = i) ∨ i ∈ ds := by
  induction ds with
  | nil => intro bs i; simp
  | cons d rest ih =>
    intro bs i
    rw [List.foldl_cons, ih]
    by_cases hany : bs.any (fun b => b.index == d) = true
    · rw [if_pos hany]
      rw [List.any_eq_true] at hany
      obtain ⟨bd, hbd, hbd2⟩ := hany
      rw [beq_iff_eq] at hbd2
      constructor
      · rintro (h | h)
        · exact Or.inl h
        · exact Or.inr (List.mem_cons_of_mem _ h)
      · rintro (h | h)
        · exact Or.inl h
        · rcases List.mem_cons.mp h with rfl | h
          · exact Or.inl ⟨bd, hbd, hbd2⟩
          · exact Or.inr h
    · rw [if_neg hany]
      constructor
      · rintro (⟨b, hb, hbi⟩ | h)
        · rcases List.mem_append.mp hb with hb | hb
          · exact Or.inl ⟨b, hb, hbi⟩
          · rw [List.mem_singleton] at hb
            subst hb
            exact Or.inr (hbi ▸ List.mem_cons_self _ _)
        · exact Or.inr (List.mem_cons_of_mem _ h)
      · rintro (⟨b, hb, hbi⟩ | h)
        · exact Or.inl ⟨b, List.mem_append_left _ hb, hbi⟩
        · rcases List.mem_cons.mp h with rfl | h
          · exact Or.inl ⟨⟨i, false⟩, List.mem_append_right _ (List.mem_singleton.mpr rfl),
              rfl⟩
          · exact Or.inr h

theorem mem_desired_indices (base i : ℤ) :
    i ∈ (List.range VISIBLE_BLOCKS).map (fun o : ℕ => base + (o : ℤ)) ↔
      base ≤ i ∧ i < base + (VISIBLE_BLOCKS : ℤ) := by
  rw [List.mem_map]
  constructor
  · rintro ⟨o, ho, rfl⟩
    rw [List.mem_range] at ho
    constructor
    · omega
    · have : (o : ℤ) < (VISIBLE_BLOCKS : ℤ) := by exact_mod_cast ho
      omega
  · rintro ⟨h1, h2⟩
    refine ⟨(i - base).toNat, ?_, ?_⟩
    · rw [List.mem_range]
      have : ((i - base).toNat : ℤ) = i - base := Int.toNat_of_nonneg (by omega)
      have h4 : (i - base) < (VISIBLE_BLOCKS : ℤ) := by omega
      omega
    · have : ((i - base).toNat : ℤ) = i - base := Int.toNat_of_nonneg (by omega)
      omega

/-- After `ensure_blocks`, the set of existing block indices is exactly the window
`[base, base + VISIBLE_BLOCKS)`. -/
theorem mem_ensure_blocks (v : ViewState) (i : ℤ) :
    (∃ b ∈ (ensure_blocks v).blocks, b.index = i) ↔
      v.baseBlockIndex ≤ i ∧ i < v.baseBlockIndex + (VISIBLE_BLOCKS : ℤ) := by
  unfold ensure_blocks
  constructor
  · rintro ⟨b, hb, hbi⟩
    rw [(List.perm_insertionSort _ _).mem_iff] at hb
    rcases (mem_fold_spawn _ _ i).mp ⟨b, hb, hbi⟩ with ⟨b2, hb2, hb2i⟩ | h
    · rw [List.mem_filter] at hb2
      rw [← mem_desired_indices v.baseBlockIndex i, ← hb2i]
      exact of_decide_eq_true hb2.2
    · exact (mem_desired_indices v.baseBlockIndex i).mp h
  · intro h
    obtain ⟨b, hb, hbi⟩ :=
      (mem_fold_spawn _ _ i).mpr (Or.inr ((mem_desired_indices _ i).mpr h))
    exact ⟨b, (List.perm_insertionSort _ _).mem_iff.mpr hb, hbi⟩

theorem ensure_blocks_base (v : ViewState) :
    (ensure_blocks v).baseBlockIndex = v.baseBlockIndex := rfl

theorem ensure_blocks_anim (v : ViewState) :
    (ensure_blocks v).shiftAnimation = v.shiftAnimation := rfl

theorem progress_shift_cached (v : ViewState) (dt : ℚ) :
    (progress_shift_animation v dt).cachedStringCount = v.cachedStringCount := by
  unfold progress_shift_animation
  split
  · rfl
  · dsimp only
    split_ifs <;> rfl

/-- Well-formedness of the animation target: the program only ever installs a target at
or above the current base (`desired_base > base` at creation, later only `max`-extended),
so reachable states satisfy this. -/
def ShiftTargetWF (v : ViewState) : Prop :=
  ∀ a, v.shiftAnimation = some a → v.baseBlockIndex ≤ a.targetBaseIndex

theorem progress_shift_base_mono (v : ViewState) (dt : ℚ) (hWF : ShiftTargetWF v) :
    v.baseBlockIndex ≤ (progress_shift_animation v dt).baseBlockIndex := by
  unfold progress_shift_animation
  split
  · exact le_refl _
  · rename_i a ha
    dsimp only
    split_ifs
    · exact hWF a ha
    · exact hWF a ha
    · exact le_refl _

theorem start_shift_spec (v : ViewState) (t : ℤ) (w : ViewState)
    (h : start_shift_animation v t = some w) :
    w.baseBlockIndex = v.baseBlockIndex ∧
    w.shiftAnimation = some ⟨t, v.baseBlockIndex, BLOCK_SHIFT_DURATION, 0⟩ := by
  unfold start_shift_animation at h
  split_ifs at h
  rw [Option.some_inj] at h
  rw [← h]
  exact ⟨rfl, rfl⟩

theorem visible_blocks_cast : ((max VISIBLE_BLOCKS 1 : ℕ) : ℤ) = 4 := by
  norm_num [VISIBLE_BLOCKS]

theorem window_decision_base_mono (v : ViewState) (current : ℤ) (bp : ℚ)
    (hblocks : v.blocks ≠ [])
    (hnoback : ¬(current < v.baseBlockIndex ∧ v.shiftAnimation = none)) :
    v.baseBlockIndex ≤ (window_decision v current bp).baseBlockIndex := by
  simp only [window_decision, if_neg hblocks, if_neg hnoback]
  split
  · rw [visible_blocks_cast]
    by_cases h1 : current > v.baseBlockIndex + 4 - 1
    · rw [if_pos h1]
      rw [if_pos (by omega : current - (4 - 1) > v.baseBlockIndex)]
      split
      · rename_i v2 heq
        rw [(start_shift_spec _ _ _ heq).1]
      · show v.baseBlockIndex ≤ current - (4 - 1)
        omega
    · rw [if_neg h1]
      by_cases h2 : current ≥ v.baseBlockIndex + max ((4:ℤ) - 2) 0 ∧ bp ≥ 95/100
      · rw [if_pos h2]
        have hd : v.baseBlockIndex ≤ max (v.baseBlockIndex + 1) 0 :=
          le_trans (by omega) (le_max_left _ _)
        by_cases h3 : max (v.baseBlockIndex + 1) 0 > v.baseBlockIndex
        · rw [if_pos h3]
          split
          · rename_i v2 heq
            rw [(start_shift_spec _ _ _ heq).1]
          · exact hd
        · rw [if_neg h3]
          exact hd
      · rw [if_neg h2]
        rw [if_neg (lt_irrefl _)]
  · rw [visible_blocks_cast]
    split_ifs <;> exact le_refl _

/-- With a non-zero string count, one frame is exactly progress-animation, optional
string-count reset, window decision, `ensure_blocks`. -/
theorem update_timeline_step_of_ne_zero (v : ViewState) (dt t D : ℚ) (sc : ℕ)
    (hsc : sc ≠ 0) :
    update_timeline_step v dt t D sc =
      ensure_blocks (window_decision
        (if sc ≠ (progress_shift_animation v dt).cachedStringCount then
          { clear_all_blocks (progress_shift_animation v dt) with cachedStringCount := sc }
        else progress_shift_animation v dt)
        (currentBlockIndex t D) (blockProgress t D)) := by
  simp only [update_timeline_step]
  rw [if_neg hsc]

/-- Claim C2: on every frame with a non-zero string count, after `ensure_blocks` the
existing block indices are exactly the `VISIBLE_BLOCKS = 4` contiguous indices
`[base, base + 4)`; and the base block index never decreases across the frame except on
a backward seek (the current block index drops below the base with no shift animation
running, checked after the animation progression as in the code) or on a reset (string
count change, or the block list emptied).  The animation-target well-formedness
`ShiftTargetWF` holds for every state the program constructs. -/
theorem c2_window_invariant (v : ViewState) (dt t D : ℚ) (sc : ℕ) (hsc : sc ≠ 0) :
    (∀ i : ℤ, (∃ b ∈ (update_timeline_step v dt t D sc).blocks, b.index = i) ↔
      ((update_timeline_step v dt t D sc).baseBlockIndex ≤ i ∧
        i < (update_timeline_step v dt t D sc).baseBlockIndex + (VISIBLE_BLOCKS : ℤ))) ∧
    (ShiftTargetWF v → sc = v.cachedStringCount →
      (progress_shift_animation v dt).blocks ≠ [] →
      ¬(currentBlockIndex t D < (progress_shift_animation v dt).baseBlockIndex ∧
        (progress_shift_animation v dt).shiftAnimation = none) →
      v.baseBlockIndex ≤ (update_timeline_step v dt t D sc).baseBlockIndex) := by
  rw [update_timeline_step_of_ne_zero v dt t D sc hsc]
  constructor
  · intro i
    rw [ensure_blocks_base]
    exact mem_ensure_blocks _ i
  · intro hWF hcached hblocks hnoback
    rw [ensure_blocks_base]
    rw [if_neg (not_ne_iff.mpr (by rw [progress_shift_cached]; exact hcached))]
    exact le_trans (progress_shift_base_mono v dt hWF)
      (window_decision_base_mono _ _ _ hblocks hnoback)

theorem exists_base_block_iff (w : ViewState) :
    (w.blocks.any (fun b => b.index == w.baseBlockIndex && !b.isRemoving) = true) ↔
      ∃ b ∈ w.blocks, b.index = w.baseBlockIndex ∧ b.isRemoving = false := by
  rw [List.any_eq_true]
  constructor <;> rintro ⟨b, hb, h⟩ <;> refine ⟨b, hb, ?_⟩
  · rw [Bool.and_eq_true, beq_iff_eq, Bool.not_eq_true'] at h
    exact h
  · rw [Bool.and_eq_true, beq_iff_eq, Bool.not_eq_true']
    exact h

/-- The catch-up decision: with no animation running and the current block index beyond
the window, the code attempts to START a collapse animation targeting
`current - (VISIBLE_BLOCKS - 1)`; only when no non-removing base block exists does it
jump the base directly. -/
theorem window_decision_catch_up (w : ViewState) (current : ℤ) (bp : ℚ)
    (hanim : w.shiftAnimation = none) (hblocks : w.blocks ≠ [])
    (hcur : w.baseBlockIndex + 3 < current) :
    ((∃ b ∈ w.blocks, b.index = w.baseBlockIndex ∧ b.isRemoving = false) →
      window_decision w current bp = { w with
        blocks := w.blocks.map (fun b =>
          if b.index == w.baseBlockIndex then { b with isRemoving := true } else b)
        shiftAnimation :=
          some ⟨current - (4 - 1), w.baseBlockIndex, BLOCK_SHIFT_DURATION, 0⟩ }) ∧
    ((¬∃ b ∈ w.blocks, b.index = w.baseBlockIndex ∧ b.isRemoving = false) →
      window_decision w current bp = { w with baseBlockIndex := current - (4 - 1) }) := by
  have hnoback : ¬(current < w.baseBlockIndex ∧ w.shiftAnimation = none) := by
    rintro ⟨h, -⟩
    omega
  constructor
  · intro hex
    have hany : w.blocks.any (fun b => b.index == w.baseBlockIndex && !b.isRemoving)
        = true := (exists_base_block_iff w).mpr hex
    have hstart : start_shift_animation w (current - (4 - 1)) =
        some { w with
          blocks := w.blocks.map (fun b =>
            if b.index == w.baseBlockIndex then { b with isRemoving := true } else b)
          shiftAnimation :=
            some ⟨current - (4 - 1), w.baseBlockIndex, BLOCK_SHIFT_DURATION, 0⟩ } := by
      unfold start_shift_animation
      rw [if_neg (by rw [hanim]; simp), if_pos hany]
    simp only [window_decision, if_neg hblocks]
    rw [if_neg hnoback]
    simp only [hanim]
    rw [visible_blocks_cast]
    rw [if_pos (by omega : current > w.baseBlockIndex + 4 - 1)]
    rw [if_pos (by omega : current - (4 - 1) > w.baseBlockIndex)]
    rw [hstart]
  · intro hex
    have hany : ¬(w.blocks.any (fun b => b.index == w.baseBlockIndex && !b.isRemoving)
        = true) := fun h => hex ((exists_base_block_iff w).mp h)
    have hstart : start_shift_animation w (current - (4 - 1)) = none := by
      unfold start_shift_animation
      rw [if_neg (by rw [hanim]; simp), if_neg hany]
    simp only [window_decision, if_neg hblocks]
    rw [if_neg hnoback]
    simp only [hanim]
    rw [visible_blocks_cast]
    rw [if_pos (by omega : current > w.baseBlockIndex + 4 - 1)]
    rw [if_pos (by omega : current - (4 - 1) > w.baseBlockIndex)]
    rw [hstart]

/-- Claim C3 (amended): on a frame with no shift animation in progress and
`current > base + VISIBLE_BLOCKS - 1`, when a non-removing block sits at the base index
the code does NOT jump: it starts a collapse animation whose target base is
`current - (VISIBLE_BLOCKS - 1)` and leaves the base unchanged; the base is set directly
to `current - (VISIBLE_BLOCKS - 1)` in the same frame only when the animation cannot
start (no non-removing base block). -/
theorem c3_catch_up (v : ViewState) (dt t D : ℚ) (sc : ℕ)
    (hsc : sc ≠ 0) (hcached : sc = v.cachedStringCount)
    (hanim : (progress_shift_animation v dt).shiftAnimation = none)
    (hblocks : (progress_shift_animation v dt).blocks ≠ [])
    (hcur : (progress_shift_animation v dt).baseBlockIndex + (VISIBLE_BLOCKS : ℤ) - 1 <
      currentBlockIndex t D) :
    ((∃ b ∈ (progress_shift_animation v dt).blocks,
        b.index = (progress_shift_animation v dt).baseBlockIndex ∧ b.isRemoving = false) →
      (update_timeline_step v dt t D sc).baseBlockIndex =
          (progress_shift_animation v dt).baseBlockIndex ∧
        ∃ a, (update_timeline_step v dt t D sc).shiftAnimation = some a ∧
          a.targetBaseIndex = currentBlockIndex t D - ((VISIBLE_BLOCKS : ℤ) - 1)) ∧
    ((¬∃ b ∈ (progress_shift_animation v dt).blocks,
        b.index = (progress_shift_animation v dt).baseBlockIndex ∧ b.isRemoving = false) →
      (update_timeline_step v dt t D sc).baseBlockIndex =
          currentBlockIndex t D - ((VISIBLE_BLOCKS : ℤ) - 1) ∧
        (update_timeline_step v dt t D sc).shiftAnimation = none) := by
  have hV : ((VISIBLE_BLOCKS : ℕ) : ℤ) = 4 := by norm_num [VISIBLE_BLOCKS]
  rw [hV] at hcur ⊢
  rw [update_timeline_step_of_ne_zero v dt t D sc hsc,
    if_neg (not_ne_iff.mpr (by rw [progress_shift_cached]; exact hcached))]
  obtain ⟨hA, hB⟩ := window_decision_catch_up (progress_shift_animation v dt)
    (currentBlockIndex t D) (blockProgress t D) hanim hblocks (by omega)
  constructor
  · intro hex
    rw [hA hex]
    refine ⟨?_, ⟨currentBlockIndex t D - (4 - 1),
      (progress_shift_animation v dt).baseBlockIndex, BLOCK_SHIFT_DURATION, 0⟩, ?_, ?_⟩
    · rw [ensure_blocks_base]
    · rw [ensure_blocks_anim]
    · rfl
  · intro hex
    rw [hB hex]
    refine ⟨?_, ?_⟩
    · rw [ensure_blocks_base]
    · rw [ensure_blocks_anim]
      exact hanim

/-- A steady-state window: blocks 0-3, base 0, six strings, no animation. -/
def c3Start : ViewState :=
  { blocks := [⟨0, false⟩, ⟨1, false⟩, ⟨2, false⟩, ⟨3, false⟩], baseBlockIndex := 0,
    cachedStringCount := 6, shiftAnimation := none }

theorem currentBlockIndex_21_2 : currentBlockIndex 21 2 = 10 := by
  norm_num [currentBlockIndex, MIN_BLOCK_DURATION, max_def]

theorem c3Start_step : update_timeline_step c3Start (1/60) 21 2 6 =
    ensure_blocks (window_decision c3Start (currentBlockIndex 21 2)
      (blockProgress 21 2)) := by
  rw [update_timeline_step_of_ne_zero c3Start (1/60) 21 2 6 (by decide)]
  rw [show progress_shift_animation c3Start (1/60) = c3Start from rfl]
  rw [if_neg (by decide : ¬((6:ℕ) ≠ c3Start.cachedStringCount))]

/-- Claim C3 (counterexample): at a steady state (blocks 0-3 present, base 0, no
animation) with the current block index 10 > base + 3, the frame does NOT set the base
to `current - 3 = 7`: it starts a collapse animation instead, leaving the base at 0. -/
theorem c3_counterexample :
    c3Start.shiftAnimation = none ∧
    c3Start.baseBlockIndex + (VISIBLE_BLOCKS : ℤ) - 1 < currentBlockIndex 21 2 ∧
    (update_timeline_step c3Start (1/60) 21 2 6).baseBlockIndex ≠
      currentBlockIndex 21 2 - ((VISIBLE_BLOCKS : ℤ) - 1) ∧
    (update_timeline_step c3Start (1/60) 21 2 6).shiftAnimation ≠ none := by
  have hV : ((VISIBLE_BLOCKS : ℕ) : ℤ) = 4 := by norm_num [VISIBLE_BLOCKS]
  have hex : ∃ b ∈ c3Start.blocks,
      b.index = c3Start.baseBlockIndex ∧ b.isRemoving = false := by decide
  obtain ⟨hA, -⟩ := window_decision_catch_up c3Start (currentBlockIndex 21 2)
    (blockProgress 21 2) rfl (by decide)
    (by rw [currentBlockIndex_21_2]; decide)
  refine ⟨rfl, ?_, ?_, ?_⟩
  · rw [currentBlockIndex_21_2, hV]
    decide
  · rw [c3Start_step, hA hex, ensure_blocks_base, currentBlockIndex_21_2, hV]
    decide
  · rw [c3Start_step, hA hex, ensure_blocks_anim]
    simp

/-- Witness for C2: the window invariant and base monotonicity at the concrete
steady-state frame. -/
theorem c2_window_invariant_witness :
    (6:ℕ) ≠ 0 ∧
    ((∀ i : ℤ, (∃ b ∈ (update_timeline_step c3Start (1/60) 21 2 6).blocks, b.index = i) ↔
      ((update_timeline_step c3Start (1/60) 21 2 6).baseBlockIndex ≤ i ∧
        i < (update_timeline_step c3Start (1/60) 21 2 6).baseBlockIndex +
          (VISIBLE_BLOCKS : ℤ))) ∧
    (ShiftTargetWF c3Start → 6 = c3Start.cachedStringCount →
      (progress_shift_animation c3Start (1/60)).blocks ≠ [] →
      ¬(currentBlockIndex 21 2 < (progress_shift_animation c3Start (1/60)).baseBlockIndex ∧
        (progress_shift_animation c3Start (1/60)).shiftAnimation = none) →
      c3Start.baseBlockIndex ≤ (update_timeline_step c3Start (1/60) 21 2 6).baseBlockIndex)) :=
  ⟨by decide, c2_window_invariant c3Start (1/60) 21 2 6 (by decide)⟩

/-- Witness for C3 at a steady-state frame where the animation can start: hypotheses
hold and the amended conclusion follows by applying the theorem. -/
theorem c3_catch_up_witness :
    (6:ℕ) ≠ 0 ∧ 6 = c3Start.cachedStringCount ∧
    (progress_shift_animation c3Start (1/60)).shiftAnimation = none ∧
    (progress_shift_animation c3Start (1/60)).blocks ≠ [] ∧
    ((progress_shift_animation c3Start (1/60)).baseBlockIndex + (VISIBLE_BLOCKS : ℤ) - 1 <
      currentBlockIndex 21 2) ∧
    (((∃ b ∈ (progress_shift_animation c3Start (1/60)).blocks,
        b.index = (progress_shift_animation c3Start (1/60)).baseBlockIndex ∧
          b.isRemoving = false) →
      (update_timeline_step c3Start (1/60) 21 2 6).baseBlockIndex =
          (progress_shift_animation c3Start (1/60)).baseBlockIndex ∧
        ∃ a, (update_timeline_step c3Start (1/60) 21 2 6).shiftAnimation = some a ∧
          a.targetBaseIndex = currentBlockIndex 21 2 - ((VISIBLE_BLOCKS : ℤ) - 1)) ∧
    ((¬∃ b ∈ (progress_shift_animation c3Start (1/60)).blocks,
        b.index = (progress_shift_animation c3Start (1/60)).baseBlockIndex ∧
          b.isRemoving = false) →
      (update_timeline_step c3Start (1/60) 21 2 6).baseBlockIndex =
          currentBlockIndex 21 2 - ((VISIBLE_BLOCKS : ℤ) - 1) ∧
        (update_timeline_step c3Start (1/60) 21 2 6).shiftAnimation = none)) := by
  have hcur : (progress_shift_animation c3Start (1/60)).baseBlockIndex +
      (VISIBLE_BLOCKS : ℤ) - 1 < currentBlockIndex 21 2 := by
    rw [currentBlockIndex_21_2, show progress_shift_animation c3Start (1/60) = c3Start
      from rfl]
    norm_num [c3Start, VISIBLE_BLOCKS]
  exact ⟨by decide, by decide, rfl, by decide, hcur,
    c3_catch_up c3Start (1/60) 21 2 6 (by decide) (by decide) rfl (by decide) hcur⟩

end Tabs
